import Mathlib

/-!
# FlowData worker attestation: a shallow embedding

This file embeds the attestation core of the FlowData worker
(`worker_nodes/common/crypto.py`, `worker_nodes/common/training_engine.py`,
`worker_nodes/worker_1/api.py`) in Lean and settles the frozen claims about it.

Modelling conventions:
* Python `str`/`bytes` values are byte lists (`Bytes := List Nat`, each entry a
  byte).  All concrete strings in the code are ASCII, where UTF-8 encoding is
  the identity on code points.
* Python `float` values are idealized as exact rationals (`ℚ`); the textual
  rendering of a float (Python `str`/`repr`) is an explicit parameter
  `frepr : ℚ → Bytes` of every definition that formats numbers, since binary
  floating point shortest-repr is outside the scope of the embedding.
  `round(x, 4)` is modelled as exact half-even rounding at four decimals.
* `random.random()` draws are an explicit stream `draws : ℕ → ℚ`, and
  `random.randint(1000000, 9999999)` is an explicit parameter, since the
  Mersenne-Twister stream itself is opaque randomness to the spec.
* SHA-256 is implemented executably over byte lists, so concrete digests are
  checked by the kernel.
-/

set_option maxRecDepth 1000000
set_option maxHeartbeats 1000000000

namespace FlowData

/-- Bytes: each entry one byte (callers keep entries below 256). -/
abbrev Bytes := List Nat

/-- UTF-8 bytes of an ASCII string literal (identity on ASCII code points). -/
def ascii (s : String) : Bytes := s.data.map Char.toNat

/-! ## SHA-256 (`hashlib.sha256`), executable over byte lists -/

namespace SHA256

/-- 2^32. -/
def w32 : Nat := 4294967296

/-- Right rotation of a 32-bit word. -/
def rotr (n x : Nat) : Nat := ((x >>> n) ||| (x <<< (32 - n))) % w32

def bS0 (x : Nat) : Nat := (rotr 2 x) ^^^ (rotr 13 x) ^^^ (rotr 22 x)
def bS1 (x : Nat) : Nat := (rotr 6 x) ^^^ (rotr 11 x) ^^^ (rotr 25 x)
def sS0 (x : Nat) : Nat := (rotr 7 x) ^^^ (rotr 18 x) ^^^ (x >>> 3)
def sS1 (x : Nat) : Nat := (rotr 17 x) ^^^ (rotr 19 x) ^^^ (x >>> 10)
def ch (x y z : Nat) : Nat := (x &&& y) ^^^ ((x ^^^ (w32 - 1)) &&& z)
def maj (x y z : Nat) : Nat := (x &&& y) ^^^ (x &&& z) ^^^ (y &&& z)

/-- The 64 SHA-256 round constants. -/
def K : List Nat :=
  [1116352408, 1899447441, 3049323471, 3921009573, 961987163, 1508970993,
   2453635748, 2870763221, 3624381080, 310598401, 607225278, 1426881987,
   1925078388, 2162078206, 2614888103, 3248222580, 3835390401, 4022224774,
   264347078, 604807628, 770255983, 1249150122, 1555081692, 1996064986,
   2554220882, 2821834349, 2952996808, 3210313671, 3336571891, 3584528711,
   113926993, 338241895, 666307205, 773529912, 1294757372, 1396182291,
   1695183700, 1986661051, 2177026350, 2456956037, 2730485921, 2820302411,
   3259730800, 3345764771, 3516065817, 3600352804, 4094571909, 275423344,
   430227734, 506948616, 659060556, 883997877, 958139571, 1322822218,
   1537002063, 1747873779, 1955562222, 2024104815, 2227730452, 2361852424,
   2428436474, 2756734187, 3204031479, 3329325298]

/-- Hash state: the eight working variables. -/
structure Hs where
  a : Nat
  b : Nat
  c : Nat
  d : Nat
  e : Nat
  f : Nat
  g : Nat
  h : Nat

/-- Initial hash state. -/
def initHs : Hs :=
  ⟨1779033703, 3144134277, 1013904242, 2773480762,
   1359893119, 2600822924, 528734635, 1541459225⟩

/-- Big-endian bytes of `n`, `k` bytes wide. -/
def beBytes (k n : Nat) : Bytes :=
  match k with
  | 0 => []
  | k + 1 => (n >>> (8 * k)) % 256 :: beBytes k n

/-- SHA-256 padding: append `0x80`, zeros to 56 mod 64, then the 64-bit
big-endian bit length. -/
def pad (msg : Bytes) : Bytes :=
  msg ++ 128 :: List.replicate ((119 - msg.length % 64) % 64) 0 ++ beBytes 8 (8 * msg.length)

/-- Group bytes into 32-bit big-endian words. -/
def toWords : Bytes → List Nat
  | b0 :: b1 :: b2 :: b3 :: rest => (((b0 * 256 + b1) * 256 + b2) * 256 + b3) :: toWords rest
  | _ => []

/-- Split a byte list into 64-byte blocks (fuel-indexed; the fuel bounds the
number of blocks, so `length` fuel always suffices). -/
def toBlocksF : Nat → Bytes → List Bytes
  | 0, _ => []
  | _, [] => []
  | n + 1, l => l.take 64 :: toBlocksF n (l.drop 64)

/-- Split a byte list into 64-byte blocks. -/
def toBlocks (l : Bytes) : List Bytes := toBlocksF l.length l

/-- Extend 16 words to the 64-word message schedule. -/
def sched : Nat → List Nat → List Nat
  | 0, acc => acc
  | n + 1, acc =>
      let m := acc.length
      let nw := (sS1 (acc.getD (m - 2) 0) + acc.getD (m - 7) 0 +
                 sS0 (acc.getD (m - 15) 0) + acc.getD (m - 16) 0) % w32
      sched n (acc ++ [nw])

/-- One compression round. -/
def step (s : Hs) (kw : Nat × Nat) : Hs :=
  let t1 := (s.h + bS1 s.e + ch s.e s.f s.g + kw.1 + kw.2) % w32
  let t2 := (bS0 s.a + maj s.a s.b s.c) % w32
  ⟨(t1 + t2) % w32, s.a, s.b, s.c, (s.d + t1) % w32, s.e, s.f, s.g⟩

/-- Compress one 64-byte block into the state. -/
def compress (hs : Hs) (block : Bytes) : Hs :=
  let w := sched 48 (toWords block)
  let f := (K.zip w).foldl step hs
  ⟨(hs.a + f.a) % w32, (hs.b + f.b) % w32, (hs.c + f.c) % w32, (hs.d + f.d) % w32,
   (hs.e + f.e) % w32, (hs.f + f.f) % w32, (hs.g + f.g) % w32, (hs.h + f.h) % w32⟩

/-- SHA-256 digest (32 bytes) of a byte list. -/
def digest (msg : Bytes) : Bytes :=
  let f := (toBlocks (pad msg)).foldl compress initHs
  beBytes 4 f.a ++ beBytes 4 f.b ++ beBytes 4 f.c ++ beBytes 4 f.d ++
  beBytes 4 f.e ++ beBytes 4 f.f ++ beBytes 4 f.g ++ beBytes 4 f.h

/-- Lowercase hex character (as an ASCII byte) for a value below 16. -/
def hexChar (n : Nat) : Nat := if n < 10 then 48 + n else 87 + n

/-- Lowercase hex encoding of a byte list, two hex characters per byte
(Python `bytes.hex()`). -/
def hexOfBytes (l : Bytes) : Bytes := l.flatMap (fun b => [hexChar (b / 16), hexChar (b % 16)])

theorem beBytes_length (k n : Nat) : (beBytes k n).length = k := by
  induction k generalizing n with
  | zero => rfl
  | succ k ih => simp [beBytes, ih]

theorem beBytes_lt (k n : Nat) : ∀ b ∈ beBytes k n, b < 256 := by
  induction k generalizing n with
  | zero => simp [beBytes]
  | succ k ih =>
      intro b hb
      simp only [beBytes, List.mem_cons] at hb
      rcases hb with h | h
      · omega
      · exact ih n b h

theorem digest_length (msg : Bytes) : (digest msg).length = 32 := by
  simp [digest, beBytes_length]

theorem digest_lt (msg : Bytes) : ∀ b ∈ digest msg, b < 256 := by
  intro b hb
  simp only [digest, List.mem_append] at hb
  rcases hb with ((((((h | h) | h) | h) | h) | h) | h) | h <;>
    exact beBytes_lt _ _ _ h

theorem hexOfBytes_length (l : Bytes) : (hexOfBytes l).length = 2 * l.length := by
  induction l with
  | nil => rfl
  | cons b t ih => simp [hexOfBytes] at ih ⊢; omega

/-- A byte is a lowercase hex character: `0`–`9` or `a`–`f`. -/
def isHexLower (c : Nat) : Bool := (48 ≤ c && c ≤ 57) || (97 ≤ c && c ≤ 102)

theorem hexChar_isHexLower {v : Nat} (hv : v < 16) : isHexLower (hexChar v) = true := by
  interval_cases v <;> decide

theorem hexOfBytes_hex {l : Bytes} (hl : ∀ b ∈ l, b < 256) :
    ∀ c ∈ hexOfBytes l, isHexLower c = true := by
  intro c hc
  simp only [hexOfBytes, List.mem_flatMap] at hc
  obtain ⟨b, hb, hcb⟩ := hc
  have h256 := hl b hb
  simp only [List.mem_cons, List.not_mem_nil, or_false] at hcb
  rcases hcb with rfl | rfl
  · exact hexChar_isHexLower (by omega)
  · exact hexChar_isHexLower (by omega)

end SHA256

/-- `crypto.sha256_hash`: hex digest of the SHA-256 of the data
(`hashlib.sha256(data).hexdigest()`). -/
def sha256_hash (data : Bytes) : Bytes := SHA256.hexOfBytes (SHA256.digest data)

theorem sha256_hash_length (data : Bytes) : (sha256_hash data).length = 64 := by
  simp [sha256_hash, SHA256.hexOfBytes_length, SHA256.digest_length]

theorem sha256_hash_hex (data : Bytes) :
    ∀ c ∈ sha256_hash data, SHA256.isHexLower c = true :=
  SHA256.hexOfBytes_hex (SHA256.digest_lt data)

/-! ## Decimal rendering of integers (Python `str(int)`) -/

/-- Little-endian base-10 digits, fuel-indexed (structural recursion, so it
evaluates everywhere; `fuel ≥ n` always suffices). -/
def natDigitsRev : Nat → Nat → List Nat
  | 0, _ => []
  | fuel + 1, n => if n = 0 then [] else n % 10 :: natDigitsRev fuel (n / 10)

theorem natDigitsRev_eq_digits : ∀ fuel n, n ≤ fuel → natDigitsRev fuel n = Nat.digits 10 n
  | 0, n, h => by
      have hn : n = 0 := by omega
      subst hn
      simp [natDigitsRev]
  | fuel + 1, n, h => by
      by_cases hn : n = 0
      · subst hn
        simp [natDigitsRev]
      · rw [natDigitsRev, if_neg hn, Nat.digits_def' (by norm_num : 1 < 10) (by omega)]
        have hdiv : n / 10 ≤ fuel := by
          have := Nat.div_lt_self (by omega : 0 < n) (by norm_num : 1 < 10)
          omega
        rw [natDigitsRev_eq_digits fuel (n / 10) hdiv]

/-- Decimal rendering of a natural number, as ASCII bytes (Python `str`). -/
def natStr (n : Nat) : Bytes :=
  if n = 0 then [48] else (natDigitsRev n n).reverse.map (· + 48)

theorem natStr_eq (n : Nat) :
    natStr n = if n = 0 then [48] else (Nat.digits 10 n).reverse.map (· + 48) := by
  rw [natStr, natDigitsRev_eq_digits n n le_rfl]

/-- Decimal rendering of an integer, as ASCII bytes (Python `str`): a leading
`-` for negative values. -/
def intStr (i : Int) : Bytes :=
  if i < 0 then 45 :: natStr i.natAbs else natStr i.toNat

theorem natStr_eq_single48 {n : Nat} (h : natStr n = [48]) : n = 0 := by
  rw [natStr_eq] at h
  by_cases hn : n = 0
  · exact hn
  · exfalso
    simp only [if_neg hn] at h
    rcases List.map_eq_cons_iff.mp h with ⟨d, t, hrev, hd48, ht⟩
    have hd0 : d = 0 := by omega
    have hdig : Nat.digits 10 n = [0] := by
      have := congrArg List.reverse hrev
      simpa [List.map_eq_nil_iff.mp ht, hd0] using this
    have hofd := Nat.ofDigits_digits 10 n
    rw [hdig] at hofd
    have : (0 : ℕ) = n := by simpa [Nat.ofDigits] using hofd
    exact hn this.symm

theorem natStr_inj : Function.Injective natStr := by
  intro m n h
  rw [natStr_eq, natStr_eq] at h
  by_cases hm : m = 0 <;> by_cases hn : n = 0
  · omega
  · subst hm
    have h0 : natStr n = [48] := by rw [natStr_eq]; simpa using h.symm
    exact absurd (natStr_eq_single48 h0) hn
  · subst hn
    have h0 : natStr m = [48] := by rw [natStr_eq]; simpa using h
    exact absurd (natStr_eq_single48 h0) hm
  · simp only [if_neg hm, if_neg hn] at h
    have hrev := List.map_injective_iff.mpr (fun a b => by omega) h
    have hdig : Nat.digits 10 m = Nat.digits 10 n := by
      simpa using congrArg List.reverse hrev
    have h1 := Nat.ofDigits_digits 10 m
    rw [hdig, Nat.ofDigits_digits] at h1
    exact h1.symm

theorem natStr_head_ge (n : Nat) : ∀ c ∈ natStr n, 48 ≤ c := by
  intro c hc
  rw [natStr_eq] at hc
  by_cases hn : n = 0
  · simp [hn] at hc; omega
  · simp only [if_neg hn, List.mem_map] at hc
    obtain ⟨d, _, rfl⟩ := hc
    omega

theorem intStr_inj : Function.Injective intStr := by
  intro i j h
  by_cases hi : i < 0 <;> by_cases hj : j < 0
  · simp only [intStr, if_pos hi, if_pos hj, List.cons.injEq, true_and] at h
    have := natStr_inj h
    omega
  · exfalso
    simp only [intStr, if_pos hi, if_neg hj] at h
    have h45 : (45 : Nat) ∈ natStr j.toNat := h ▸ List.mem_cons_self 45 _
    have := natStr_head_ge j.toNat 45 h45
    omega
  · exfalso
    simp only [intStr, if_neg hi, if_pos hj] at h
    have h45 : (45 : Nat) ∈ natStr i.toNat := h.symm ▸ List.mem_cons_self 45 _
    have := natStr_head_ge i.toNat 45 h45
    omega
  · simp only [intStr, if_neg hi, if_neg hj] at h
    have := natStr_inj h
    omega

/-- Python `str(bool)`: `True` / `False`. -/
def boolStr : Bool → Bytes
  | true => ascii "True"
  | false => ascii "False"

/-! ## Python float idealization: exact rationals and `round(x, 4)` -/

/-- Round a rational to the nearest integer, ties to even (Python `round`). -/
def halfEven (q : ℚ) : ℤ :=
  let f := ⌊q⌋
  let r := q - f
  if r < 1/2 then f
  else if 1/2 < r then f + 1
  else if f % 2 = 0 then f else f + 1

/-- Python `round(x, 4)`: half-even rounding at four decimal places. -/
def round4 (q : ℚ) : ℚ := (halfEven (q * 10000) : ℚ) / 10000

theorem halfEven_intCast (n : ℤ) : halfEven (n : ℚ) = n := by
  simp [halfEven]

theorem round4_idem (q : ℚ) : round4 (round4 q) = round4 q := by
  unfold round4
  rw [div_mul_cancel₀ _ (by norm_num : (10000 : ℚ) ≠ 0), halfEven_intCast]

/-- Join byte lists with a separator (Python `sep.join(parts)`). -/
def joinBytes (sep : Bytes) : List Bytes → Bytes
  | [] => []
  | [x] => x
  | x :: y :: t => x ++ sep ++ joinBytes sep (y :: t)

/-! ## Base64 (`base64.b64encode` / `base64.b64decode`)

`b64decode` models CPython's default (`validate=False`) behaviour: characters
outside the alphabet (and `=`) are discarded first, the rest must form padded
four-character groups, with `=` padding only terminal. -/

namespace B64

/-- Value of a base64 alphabet character; `none` outside the alphabet. -/
def b64val (c : Nat) : Option Nat :=
  if 65 ≤ c ∧ c ≤ 90 then some (c - 65)
  else if 97 ≤ c ∧ c ≤ 122 then some (c - 71)
  else if 48 ≤ c ∧ c ≤ 57 then some (c + 4)
  else if c = 43 then some 62
  else if c = 47 then some 63
  else none

/-- Is this byte a base64 alphabet character? -/
def isB64 (c : Nat) : Bool := (b64val c).isSome

/-- Base64 alphabet character for a 6-bit value. -/
def b64char (v : Nat) : Nat :=
  if v < 26 then v + 65
  else if v < 52 then v + 71
  else if v < 62 then v - 4
  else if v = 62 then 43 else 47

/-- Encode bytes in three-byte groups, padding the final partial group. -/
def encodeCore : Bytes → Bytes
  | [] => []
  | [a] => [b64char (a / 4), b64char (a % 4 * 16), 61, 61]
  | [a, b] => [b64char (a / 4), b64char (a % 4 * 16 + b / 16), b64char (b % 16 * 4), 61]
  | a :: b :: c :: rest =>
      b64char (a / 4) :: b64char (a % 4 * 16 + b / 16) :: b64char (b % 16 * 4 + c / 64) ::
      b64char (c % 64) :: encodeCore rest

/-- Decode well-formed padded four-character groups (`=` padding terminal only). -/
def decodeQuads : Bytes → Option Bytes
  | [] => some []
  | c1 :: c2 :: c3 :: c4 :: rest =>
      if c3 = 61 ∧ c4 = 61 ∧ rest = [] then
        match b64val c1, b64val c2 with
        | some v1, some v2 => some [v1 * 4 + v2 / 16]
        | _, _ => none
      else if c4 = 61 ∧ rest = [] then
        match b64val c1, b64val c2, b64val c3 with
        | some v1, some v2, some v3 => some [v1 * 4 + v2 / 16, v2 % 16 * 16 + v3 / 4]
        | _, _, _ => none
      else
        match b64val c1, b64val c2, b64val c3, b64val c4 with
        | some v1, some v2, some v3, some v4 =>
            (decodeQuads rest).map
              (fun t => (v1 * 4 + v2 / 16) :: (v2 % 16 * 16 + v3 / 4) :: (v3 % 4 * 64 + v4) :: t)
        | _, _, _, _ => none
  | _ => none

/-- `base64.b64encode`. -/
def b64encode (l : Bytes) : Bytes := encodeCore l

/-- `base64.b64decode` with `validate=False`: discard foreign characters, then
require well-formed padded quads; `none` models `binascii.Error`. -/
def b64decode (s : Bytes) : Option Bytes :=
  let t := s.filter (fun c => isB64 c || c == 61)
  if t.length % 4 = 0 then decodeQuads t else none

theorem b64val_b64char : ∀ v, v < 64 → b64val (b64char v) = some v := by decide

theorem b64char_ne_61 (v : Nat) : b64char v ≠ 61 := by
  unfold b64char
  split_ifs <;> omega

theorem isB64_b64char (v : Nat) : isB64 (b64char v) = true := by
  by_cases h : v < 64
  · simp [isB64, b64val_b64char v h]
  · have : b64char v = 47 := by
      unfold b64char
      have h1 : ¬ v < 26 := by omega
      have h2 : ¬ v < 52 := by omega
      have h3 : ¬ v < 62 := by omega
      have h4 : v ≠ 62 := by omega
      simp [h1, h2, h3, h4]
    rw [this]; decide

theorem filter_encodeCore (l : Bytes) :
    (encodeCore l).filter (fun c => isB64 c || c == 61) = encodeCore l := by
  rw [List.filter_eq_self]
  intro c hc
  induction l using encodeCore.induct with
  | case1 => simp [encodeCore] at hc
  | case2 a =>
      simp only [encodeCore, List.mem_cons, List.not_mem_nil, or_false] at hc
      rcases hc with rfl | rfl | rfl | rfl <;> simp [isB64_b64char]
  | case3 a b =>
      simp only [encodeCore, List.mem_cons, List.not_mem_nil, or_false] at hc
      rcases hc with rfl | rfl | rfl | rfl <;> simp [isB64_b64char]
  | case4 a b c' rest ih =>
      simp only [encodeCore, List.mem_cons] at hc
      rcases hc with rfl | rfl | rfl | rfl | hmem
      · simp [isB64_b64char]
      · simp [isB64_b64char]
      · simp [isB64_b64char]
      · simp [isB64_b64char]
      · exact ih hmem

theorem encodeCore_length_mod (l : Bytes) : (encodeCore l).length % 4 = 0 := by
  induction l using encodeCore.induct with
  | case1 => simp [encodeCore]
  | case2 a => simp [encodeCore]
  | case3 a b => simp [encodeCore]
  | case4 a b c rest ih => simp [encodeCore]; omega

theorem decodeQuads_encodeCore {l : Bytes} (hl : ∀ b ∈ l, b < 256) :
    decodeQuads (encodeCore l) = some l := by
  induction l using encodeCore.induct with
  | case1 => simp [encodeCore, decodeQuads]
  | case2 a =>
      have ha : a < 256 := hl a (by simp)
      have h1 : a / 4 < 64 := by omega
      have h2 : a % 4 * 16 < 64 := by omega
      simp [encodeCore, decodeQuads, b64val_b64char _ h1, b64val_b64char _ h2] <;> omega
  | case3 a b =>
      have ha : a < 256 := hl a (by simp)
      have hb : b < 256 := hl b (by simp)
      have h1 : a / 4 < 64 := by omega
      have h2 : a % 4 * 16 + b / 16 < 64 := by omega
      have h3 : b % 16 * 4 < 64 := by omega
      have e1 : a / 4 * 4 + (a % 4 * 16 + b / 16) / 16 = a := by omega
      have e2 : (a % 4 * 16 + b / 16) % 16 * 16 + b % 16 * 4 / 4 = b := by omega
      simp [encodeCore, decodeQuads, b64char_ne_61, b64val_b64char _ h1, b64val_b64char _ h2,
        b64val_b64char _ h3, e1, e2] <;> omega
  | case4 a b c rest ih =>
      have ha : a < 256 := hl a (by simp)
      have hb : b < 256 := hl b (by simp)
      have hc : c < 256 := hl c (by simp)
      have hrest : ∀ x ∈ rest, x < 256 := fun x hx => hl x (by simp [hx])
      have h1 : a / 4 < 64 := by omega
      have h2 : a % 4 * 16 + b / 16 < 64 := by omega
      have h3 : b % 16 * 4 + c / 64 < 64 := by omega
      have h4 : c % 64 < 64 := by omega
      have e1 : a / 4 * 4 + (a % 4 * 16 + b / 16) / 16 = a := by omega
      have e2 : (a % 4 * 16 + b / 16) % 16 * 16 + (b % 16 * 4 + c / 64) / 4 = b := by omega
      have e3 : (b % 16 * 4 + c / 64) % 4 * 64 + c % 64 = c := by omega
      simp [encodeCore, decodeQuads, b64char_ne_61, b64val_b64char _ h1, b64val_b64char _ h2,
        b64val_b64char _ h3, b64val_b64char _ h4, ih hrest, e1, e2, e3] <;> omega

/-- Base64 round trip: decoding an encoding recovers the bytes. -/
theorem b64decode_b64encode {l : Bytes} (hl : ∀ b ∈ l, b < 256) :
    b64decode (b64encode l) = some l := by
  unfold b64decode b64encode
  rw [filter_encodeCore, if_pos (encodeCore_length_mod l)]
  exact decodeQuads_encodeCore hl

theorem b64encode_inj_on {l l' : Bytes} (hl : ∀ b ∈ l, b < 256) (hl' : ∀ b ∈ l', b < 256)
    (h : b64encode l = b64encode l') : l = l' := by
  have h1 := b64decode_b64encode hl
  have h2 := b64decode_b64encode hl'
  rw [h, h2] at h1
  exact (Option.some_injective _ h1).symm

end B64

/-! ## Hex decoding (`bytes.fromhex`) -/

/-- Value of a hex character; `none` otherwise.  (Whitespace, which CPython
tolerates between pairs, does not occur in the modelled inputs.) -/
def hexVal (c : Nat) : Option Nat :=
  if 48 ≤ c ∧ c ≤ 57 then some (c - 48)
  else if 97 ≤ c ∧ c ≤ 102 then some (c - 87)
  else if 65 ≤ c ∧ c ≤ 70 then some (c - 55)
  else none

/-- `bytes.fromhex`: pairs of hex characters; `none` models `ValueError`. -/
def hexdecode : Bytes → Option Bytes
  | [] => some []
  | c1 :: c2 :: rest =>
      match hexVal c1, hexVal c2 with
      | some h, some l => (hexdecode rest).map ((h * 16 + l) :: ·)
      | _, _ => none
  | [_] => none

/-! ## `WorkerKeypair.__init__` secret resolution (`crypto.py`) -/

/-- Key material from a configured secret (`WorkerKeypair.__init__`): try
base64 decoding, then hex decoding, then fall back to the raw UTF-8 bytes
truncated to 32 (`private_key_env.encode('utf-8')[:32]`). -/
def resolveKeyMaterial (secret : Bytes) : Bytes :=
  match B64.b64decode secret with
  | some k => k
  | none =>
      match hexdecode secret with
      | some k => k
      | none => secret.take 32

/-- Key material at initialization: a truthy configured secret resolves via
`resolveKeyMaterial`; an absent (or empty, hence falsy) secret yields the
freshly generated random key `fresh`. -/
def initKeyMaterial (secret : Option Bytes) (fresh : Bytes) : Bytes :=
  match secret with
  | some s => if s.isEmpty then fresh else resolveKeyMaterial s
  | none => fresh

/-! ## Hardware info and its JSON serialization (`json.dumps(..., sort_keys=True)`) -/

/-- A scalar JSON value as it occurs in the hardware-info dict: int, float, or
string.  Strings are serialized without escaping, which is faithful for the
plain ASCII values the code produces. -/
inductive PyVal where
  | pInt (n : ℤ)
  | pRat (q : ℚ)
  | pStr (s : Bytes)
  deriving DecidableEq

/-- Serialization of a scalar JSON value; floats go through `frepr`. -/
def dumpsPV (frepr : ℚ → Bytes) : PyVal → Bytes
  | .pInt n => intStr n
  | .pRat q => frepr q
  | .pStr s => 34 :: (s ++ [34])

/-- The hardware-info dict: association list of ASCII keys to scalar values. -/
abbrev HWInfo := List (Bytes × PyVal)

/-- Strict lexicographic byte order (Python `<` on strings). -/
def bytesLt : Bytes → Bytes → Bool
  | [], [] => false
  | [], _ :: _ => true
  | _ :: _, [] => false
  | a :: as, b :: bs => if a < b then true else if a = b then bytesLt as bs else false

/-- Insert an entry into a key-sorted association list. -/
def insertSorted (kv : Bytes × PyVal) : HWInfo → HWInfo
  | [] => [kv]
  | x :: t => if bytesLt kv.1 x.1 then kv :: x :: t else x :: insertSorted kv t

/-- Sort a dict's entries by key (Python `sort_keys=True`; dict keys are unique,
so stability is irrelevant). -/
def sortByKey (l : HWInfo) : HWInfo := l.foldr insertSorted []

/-- `json.dumps(h, sort_keys=True)` for a flat dict: `\x7b"k": v, ...\x7d` with
keys sorted; 123/125 are the brace bytes and 34 the quote byte. -/
def dumpsHW (frepr : ℚ → Bytes) (h : HWInfo) : Bytes :=
  123 :: (joinBytes (ascii ", ")
    ((sortByKey h).map (fun kv => 34 :: (kv.1 ++ [34] ++ ascii ": " ++ dumpsPV frepr kv.2)))
    ++ [125])

/-! ## `verify_commit` (`crypto.py`) -/

/-- The record `verify_commit` returns. -/
structure CommitVerification where
  matchFlag : Bool
  computedHash : Bytes
  commitHash : Bytes
  verified : Bool
  deriving DecidableEq

/-- `crypto.verify_commit`: hash the plaintext and compare with the published
commitment (case-sensitive equality of hex strings); pure, no side effects. -/
def verify_commit (plaintext_data commit_hash : Bytes) : CommitVerification :=
  let computed_hash := sha256_hash plaintext_data
  let m := computed_hash == commit_hash
  ⟨m, computed_hash, commit_hash, m⟩

/-- `crypto.create_commit_hash`. -/
def create_commit_hash (plaintext_data : Bytes) : Bytes := sha256_hash plaintext_data

/-! ## `create_attestation` (`crypto.py`) -/

/-- The worker keypair, abstracted to its observable interface: a deterministic
signing function over message bytes and the raw public key bytes.  (Ed25519
itself, or the mock `sha256(priv + msg)` fallback, instantiate `sign`.) -/
structure KeypairM where
  sign : Bytes → Bytes
  pub : Bytes

/-- `WorkerKeypair.get_sui_address`: `"0x" + public_key.hex()[:64]`. -/
def get_sui_address (pub : Bytes) : Bytes := ascii "0x" ++ (SHA256.hexOfBytes pub).take 64

/-- The record `create_attestation` returns. -/
structure Attestation where
  message : Bytes
  signature : Bytes
  publicKey : Bytes
  signerPubKey : Bytes
  weightsHash : Bytes
  lossHistoryHash : Bytes
  suiAddress : Bytes
  hardwareInfo : HWInfo
  commitVerified : Option CommitVerification
  deriving DecidableEq

/-- The ordered `key:value` lines of the canonical message
(`message_parts` in `create_attestation`): nine mandatory lines, then the
hardware line only if `hardware_info` is truthy (present and non-empty),
then the commit summary (match flag + commit hash) only if `commit_verified`
is present. -/
def messageParts (frepr : ℚ → Bytes)
    (node_id weights_hash loss_history_hash started_at finished_at global_model_hash : Bytes)
    (num_samples epoch_count random_seed : ℤ)
    (hardware_info : Option HWInfo) (commit_verified : Option CommitVerification) :
    List Bytes :=
  [ascii "nodeId:" ++ node_id,
   ascii "weightsHash:" ++ weights_hash,
   ascii "lossHistoryHash:" ++ loss_history_hash,
   ascii "startedAt:" ++ started_at,
   ascii "finishedAt:" ++ finished_at,
   ascii "globalModelHash:" ++ global_model_hash,
   ascii "numSamples:" ++ intStr num_samples,
   ascii "epochCount:" ++ intStr epoch_count,
   ascii "randomSeed:" ++ intStr random_seed]
  ++ (match hardware_info with
      | some h => if h.isEmpty then [] else [ascii "hardware:" ++ dumpsHW frepr h]
      | none => [])
  ++ (match commit_verified with
      | some cv => [ascii "commitVerified:" ++ boolStr cv.matchFlag,
                    ascii "commitHash:" ++ cv.commitHash]
      | none => [])

/-- `crypto.create_attestation`.  `hwAmbient` models the `get_hardware_info()`
call used as fallback in the returned record (`hardware_info or
get_hardware_info()`); note the fallback is only in the *record*, never in the
signed message.  The loss-history hash is the SHA-256 of the comma join of the
rendered loss values (`",".join(map(str, loss_history))`). -/
def create_attestation (frepr : ℚ → Bytes)
    (node_id weights_hash : Bytes) (loss_history : List ℚ)
    (started_at finished_at global_model_hash : Bytes)
    (num_samples epoch_count random_seed : ℤ)
    (keypair : KeypairM) (hwAmbient : HWInfo)
    (hardware_info : Option HWInfo) (commit_verified : Option CommitVerification) :
    Attestation :=
  let loss_history_hash := sha256_hash (joinBytes [44] (loss_history.map frepr))
  let message := joinBytes [10] (messageParts frepr node_id weights_hash loss_history_hash
    started_at finished_at global_model_hash num_samples epoch_count random_seed
    hardware_info commit_verified)
  let signature_base64 := B64.b64encode (keypair.sign message)
  let public_key_base64 := B64.b64encode keypair.pub
  { message := message,
    signature := signature_base64,
    publicKey := public_key_base64,
    signerPubKey := public_key_base64,
    weightsHash := weights_hash,
    lossHistoryHash := loss_history_hash,
    suiAddress := get_sui_address keypair.pub,
    hardwareInfo :=
      (match hardware_info with
       | some h => if h.isEmpty then hwAmbient else h
       | none => hwAmbient),
    commitVerified := commit_verified }

/-- Modelled from the spec: the verifier-side reconstruction of the canonical
message from the attested fields (spec §4.4/§8), applying the identical
optionality rule — the hardware line is included exactly when the record's
hardware dict is truthy (non-empty), the commit summary exactly when a commit
verification is present — and recomputing `lossHistoryHash` as the SHA-256 of
the comma join of the loss history. -/
def reconstructMessage (frepr : ℚ → Bytes)
    (node_id weights_hash : Bytes) (loss_history : List ℚ)
    (started_at finished_at global_model_hash : Bytes)
    (num_samples epoch_count random_seed : ℤ)
    (hwField : HWInfo) (cvField : Option CommitVerification) : Bytes :=
  joinBytes [10] (messageParts frepr node_id weights_hash
    (sha256_hash (joinBytes [44] (loss_history.map frepr)))
    started_at finished_at global_model_hash num_samples epoch_count random_seed
    (if hwField.isEmpty then none else some hwField) cvField)

/-! ## `encrypt_for_coordinator` (`crypto.py`) -/

/-- The record `encrypt_for_coordinator` returns: `encryption` holds the
`"base64"` placeholder label in the encoded case, and is absent otherwise. -/
structure EncodeResult where
  encrypted : Bool
  data : Bytes
  encryption : Option Bytes
  deriving DecidableEq

/-- `crypto.encrypt_for_coordinator`: serialize the payload
(`json.dumps(data, sort_keys=True)`, abstracted as `jdumps`); with a truthy
session key, base64-encode the JSON as an explicitly labeled non-confidential
placeholder; otherwise pass the JSON through with `encrypted = false`. -/
def encrypt_for_coordinator {P : Type} (jdumps : P → Bytes) (data : P)
    (session_key : Option Bytes) : EncodeResult :=
  let data_json := jdumps data
  match session_key with
  | some k =>
      if k.isEmpty then ⟨false, data_json, none⟩
      else ⟨true, B64.b64encode data_json, some (ascii "base64")⟩
  | none => ⟨false, data_json, none⟩

/-! ## `train_on_csv` (`training_engine.py`) -/

/-- ASCII whitespace for Python `str.strip`. -/
def isPySpace (c : Nat) : Bool := c = 32 || c = 9 || c = 10 || c = 13 || c = 11 || c = 12

/-- Split on newline bytes; a trailing newline yields no final empty line
(Python `str.splitlines`, modelled for `\n` separators, the only ones the
CSV inputs use). -/
def splitLinesAux : Bytes → Bytes → List Bytes
  | [], cur => [cur.reverse]
  | 10 :: t, cur => if t.isEmpty then [cur.reverse] else cur.reverse :: splitLinesAux t []
  | c :: t, cur => splitLinesAux t (c :: cur)

/-- Python `str.splitlines` (newline-only model). -/
def splitlines (s : Bytes) : List Bytes :=
  match s with
  | [] => []
  | _ => splitLinesAux s []

/-- `num_samples` in `train_on_csv`: `max(10, len(non-blank lines) - 1)`
(the header line is skipped; ℕ truncated subtraction agrees with the Python
value because of the `max 10`). -/
def numSamplesOf (csv_text : Bytes) : ℕ :=
  let lines := (splitlines csv_text).filter (fun l => l.any (fun c => ! isPySpace c))
  max 10 (lines.length - 1)

/-- The record `train_on_csv` returns. -/
structure TrainStats where
  num_samples : ℕ
  loss_history : List ℚ
  epoch_loss_hashes : List Bytes
  epoch_gradient_norm_hashes : List Bytes
  random_challenge_seed : ℕ
  deriving DecidableEq

/-- The per-epoch loss hash preimage:
`f"epoch:{epoch}:loss:{loss_rounded}:seed:{seed}:challenge:{challenge}"`. -/
def lossMsg (frepr : ℚ → Bytes) (e : ℕ) (v : ℚ) (seed : ℤ) (chal : ℕ) : Bytes :=
  ascii "epoch:" ++ natStr e ++ ascii ":loss:" ++ frepr v ++ ascii ":seed:" ++ intStr seed ++
  ascii ":challenge:" ++ natStr chal

/-- The per-epoch gradient-norm hash preimage:
`f"epoch:{epoch}:grad_norm:{gradient_norm}:seed:{seed}:challenge:{challenge}"`. -/
def gradMsg (frepr : ℚ → Bytes) (e : ℕ) (g : ℚ) (seed : ℤ) (chal : ℕ) : Bytes :=
  ascii "epoch:" ++ natStr e ++ ascii ":grad_norm:" ++ frepr g ++ ascii ":seed:" ++ intStr seed ++
  ascii ":challenge:" ++ natStr chal

/-- The training loop body of `train_on_csv`: `n` remaining epochs, `e` the
current epoch index, `loss` the running (unrounded) loss, `ix` the index of
the next `random.random()` draw.  Each epoch consumes one draw for
`time.sleep(0.3 + random.random() * 0.2)` and one for the loss factor
`0.82 + random.random() * 0.04`; the history records `round(loss, 4)` while
the gradient-norm proxy `1.0 / (loss + 0.01)` uses the unrounded loss, which
is also what is carried into the next epoch. -/
def epochsRun (frepr : ℚ → Bytes) (seed : ℤ) (chal : ℕ) (draws : ℕ → ℚ) :
    ℕ → ℕ → ℚ → ℕ → List ℚ × List Bytes × List Bytes
  | 0, _, _, _ => ([], [], [])
  | n + 1, e, loss, ix =>
      let loss2 := loss * (82/100 + draws (ix + 1) * (4/100))
      let lr := round4 loss2
      let g := 1 / (loss2 + 1/100)
      let rest := epochsRun frepr seed chal draws n (e + 1) loss2 (ix + 2)
      (lr :: rest.1,
       sha256_hash (lossMsg frepr e lr seed chal) :: rest.2.1,
       sha256_hash (gradMsg frepr e g seed chal) :: rest.2.2)

/-- `training_engine.train_on_csv`: seeded loss walk with replay-proof hash
chains.  `draws` is the `random.random()` stream after `random.seed(seed)`
(draw 0 feeds the initial loss `1.0 + random.random() * 0.2`), and `chal` the
`random.randint(1000000, 9999999)` challenge; the epoch count is clamped to
`max(1, min(epochs, 10))`. -/
def train_on_csv (frepr : ℚ → Bytes) (csv_text : Bytes) (epochs : ℤ) (seed : ℤ)
    (draws : ℕ → ℚ) (chal : ℕ) : TrainStats :=
  let loss0 := 1 + draws 0 * (2/10)
  let cnt := (max 1 (min epochs 10)).toNat
  let r := epochsRun frepr seed chal draws cnt 0 loss0 1
  ⟨numSamplesOf csv_text, r.1, r.2.1, r.2.2, chal⟩

/-- The unrounded running loss after epoch `j`, starting from `loss` with the
next draw at index `ix + 1`. -/
def uLoss (draws : ℕ → ℚ) (ix : ℕ) (loss : ℚ) : ℕ → ℚ
  | 0 => loss * (82/100 + draws (ix + 1) * (4/100))
  | j + 1 => uLoss draws ix loss j * (82/100 + draws (ix + 2 * (j + 1) + 1) * (4/100))

theorem uLoss_shift (draws : ℕ → ℚ) (ix : ℕ) (loss : ℚ) (j : ℕ) :
    uLoss draws (ix + 2) (loss * (82/100 + draws (ix + 1) * (4/100))) j =
      uLoss draws ix loss (j + 1) := by
  induction j with
  | zero =>
      show loss * (82/100 + draws (ix + 1) * (4/100)) * (82/100 + draws (ix + 2 + 1) * (4/100)) =
        uLoss draws ix loss 0 * (82/100 + draws (ix + 2 * (0 + 1) + 1) * (4/100))
      have hix : ix + 2 + 1 = ix + 2 * (0 + 1) + 1 := by omega
      rw [hix]
      rfl
  | succ j ih =>
      show uLoss draws (ix + 2) (loss * (82/100 + draws (ix + 1) * (4/100))) j *
          (82/100 + draws (ix + 2 + 2 * (j + 1) + 1) * (4/100)) =
        uLoss draws ix loss (j + 1) * (82/100 + draws (ix + 2 * (j + 1 + 1) + 1) * (4/100))
      have hix : ix + 2 + 2 * (j + 1) + 1 = ix + 2 * (j + 1 + 1) + 1 := by omega
      rw [hix, ih]

/-- Closed form of the training loop: the history holds the rounded losses,
the loss hashes bind the rounded losses, and the gradient-norm hashes bind
`1 / (unrounded loss + 0.01)`. -/
theorem epochsRun_eq (frepr : ℚ → Bytes) (seed : ℤ) (chal : ℕ) (draws : ℕ → ℚ) :
    ∀ (n e : ℕ) (loss : ℚ) (ix : ℕ),
      epochsRun frepr seed chal draws n e loss ix =
        ((List.range n).map (fun j => round4 (uLoss draws ix loss j)),
         (List.range n).map (fun j =>
           sha256_hash (lossMsg frepr (e + j) (round4 (uLoss draws ix loss j)) seed chal)),
         (List.range n).map (fun j =>
           sha256_hash (gradMsg frepr (e + j) (1 / (uLoss draws ix loss j + 1/100)) seed chal))) := by
  intro n
  induction n with
  | zero => intro e loss ix; rfl
  | succ n ih =>
      intro e loss ix
      rw [epochsRun, ih (e + 1) (loss * (82/100 + draws (ix + 1) * (4/100))) (ix + 2)]
      rw [List.range_succ_eq_map]
      simp only [List.map_cons, List.map_map]
      refine congrArg₂ _ ?_ (congrArg₂ _ ?_ ?_)
      · refine congrArg₂ _ rfl ?_
        refine List.map_congr_left fun j hj => ?_
        simp only [Function.comp]
        rw [uLoss_shift]
      · refine congrArg₂ _ ?_ ?_
        · show sha256_hash (lossMsg frepr e (round4 (uLoss draws ix loss 0)) seed chal) =
            sha256_hash (lossMsg frepr (e + 0) (round4 (uLoss draws ix loss 0)) seed chal)
          rw [Nat.add_zero]
        · refine List.map_congr_left fun j hj => ?_
          simp only [Function.comp]
          rw [uLoss_shift]
          have he : e + 1 + j = e + (j + 1) := by omega
          rw [he]
      · refine congrArg₂ _ ?_ ?_
        · show sha256_hash (gradMsg frepr e (1 / (uLoss draws ix loss 0 + 1/100)) seed chal) =
            sha256_hash (gradMsg frepr (e + 0) (1 / (uLoss draws ix loss 0 + 1/100)) seed chal)
          rw [Nat.add_zero]
        · refine List.map_congr_left fun j hj => ?_
          simp only [Function.comp]
          rw [uLoss_shift]
          have he : e + 1 + j = e + (j + 1) := by omega
          rw [he]

/-! ## The `/train` round (`worker_1/api.py`) -/

/-- The request body (`TrainShardRequest`): optional fields are `None` by
default; empty strings are falsy to the handler, like `None`. -/
structure TrainShardRequest where
  dataShard : Bytes
  globalModelHash : Bytes
  epochCount : ℤ
  nodeId : Bytes
  randomSeed : ℤ
  encryptedData : Option Bytes
  sessionKey : Option Bytes
  txBytes : Option Bytes
  userAddress : Option Bytes
  commitHash : Option Bytes

/-- Python truthiness of an optional string: present and non-empty. -/
def truthy : Option Bytes → Bool
  | some s => ! s.isEmpty
  | none => false

/-- The JSON body POSTed to the coordinator's `/api/decrypt`. -/
structure DecryptRequest where
  encryptedData : Option Bytes
  sessionKey : Option Bytes
  txBytes : Option Bytes
  userAddress : Option Bytes

/-- Audit-log events appended by the handler. -/
inductive AuditEvent where
  | trainingStart (timestamp nodeId globalModelHash : Bytes)
  | decryptPermissionRequest (timestamp : Bytes) (hasTxBytes : Bool)
  | commitVerificationEvt (timestamp : Bytes) (matchFlag : Bool) (commitHash : Bytes)
  | decryptPermissionGranted (timestamp : Bytes)
  | decryptFailed (timestamp error : Bytes)
  | trainingComplete (timestamp : Bytes) (numSamples : ℕ) (epochs : ℤ)
  | workerIdentity (timestamp suiAddress : Bytes) (hardwareInfo : HWInfo)
  | updateHash (timestamp weightsHash lossHistoryHash : Bytes)
  | signatureGenerated (timestamp signature publicKey : Bytes)
  deriving DecidableEq

/-- The update payload of a successful round. -/
structure UpdatePayload where
  nodeId : Bytes
  suiAddress : Bytes
  numSamples : ℕ
  deltaWeightsHash : Bytes
  weightsHash : Bytes
  lossHistory : List ℚ
  startedAt : Bytes
  finishedAt : Bytes
  dataInsights : Bytes
  epochLossHashes : List Bytes
  epochGradientNormHashes : List Bytes
  randomChallengeSeed : ℕ
  attestation : Attestation
  auditTrace : List AuditEvent
  deriving DecidableEq

/-- The labeled error body returned when decryption fails. -/
structure ErrorBody where
  error : Bytes
  nodeId : Bytes
  auditEvents : List AuditEvent
  deriving DecidableEq

/-- The handler's outcome: the `(body, 400)` error pair, a plain update, or
an encrypted update wrapper. -/
inductive TrainResponse where
  | errorResp (body : ErrorBody) (status : ℕ)
  | ok (payload : UpdatePayload)
  | okEncrypted (encryptedUpdate : EncodeResult)
  deriving DecidableEq

/-- The handler's collaborators and ambient state: float rendering, the RNG
stream and challenge draw, the process-wide keypair and hardware info
(`WORKER_KEYPAIR`, `WORKER_HARDWARE_INFO`), the external decrypt call (first
argument: the explicit client timeout in seconds; result: the parsed response
body, or the caught exception's text), the `datetime.utcnow()` stream, the
CSV analyzer, and the payload JSON serializer. -/
structure Env where
  frepr : ℚ → Bytes
  draws : ℕ → ℚ
  chal : ℕ
  keypair : KeypairM
  hwInfo : HWInfo
  decrypt : ℚ → DecryptRequest → Except Bytes (List (Bytes × Bytes))
  times : ℕ → Bytes
  analyze : Bytes → Bytes
  pdumps : UpdatePayload → Bytes

/-- Python `str(list_of_floats)`: `[v, v, ...]` with 91/93 the bracket bytes. -/
def pyListStr (frepr : ℚ → Bytes) (l : List ℚ) : Bytes :=
  91 :: (joinBytes (ascii ", ") (l.map frepr) ++ [93])

/-- The `weights_data` preimage:
`f"{nodeId}:{globalModelHash}:{loss_history}:{num_samples}:{random_challenge_seed}"`. -/
def weightsData (env : Env) (req : TrainShardRequest) (stats : TrainStats) : Bytes :=
  req.nodeId ++ [58] ++ req.globalModelHash ++ [58] ++ pyListStr env.frepr stats.loss_history ++
  [58] ++ natStr stats.num_samples ++ [58] ++ natStr stats.random_challenge_seed

/-- The tail of the `/train` handler after the decrypt stage: analyze, train,
hash, attest, package, and optionally transport-encode. -/
def trainBody (env : Env) (req : TrainShardRequest) (started : Bytes) (data_shard : Bytes)
    (commit_verified : Option CommitVerification) (audit : List AuditEvent) : TrainResponse :=
  let data_insights := env.analyze data_shard
  let stats := train_on_csv env.frepr data_shard req.epochCount req.randomSeed env.draws env.chal
  let finished := env.times 5
  let weights_hash := sha256_hash (weightsData env req stats)
  let delta := ascii "sha256:" ++ weights_hash.take 32
  let attestation := create_attestation env.frepr req.nodeId weights_hash stats.loss_history
    started finished req.globalModelHash (stats.num_samples : ℤ) req.epochCount req.randomSeed
    env.keypair env.hwInfo (some env.hwInfo) commit_verified
  let audit2 := audit ++
    [AuditEvent.trainingComplete finished stats.num_samples req.epochCount,
     AuditEvent.workerIdentity (env.times 6) attestation.suiAddress env.hwInfo,
     AuditEvent.updateHash (env.times 7) weights_hash attestation.lossHistoryHash,
     AuditEvent.signatureGenerated (env.times 8) (attestation.signature.take 32 ++ ascii "...")
       (attestation.publicKey.take 32 ++ ascii "...")]
  let update_payload : UpdatePayload :=
    { nodeId := req.nodeId, suiAddress := attestation.suiAddress,
      numSamples := stats.num_samples, deltaWeightsHash := delta,
      weightsHash := weights_hash, lossHistory := stats.loss_history,
      startedAt := started, finishedAt := finished, dataInsights := data_insights,
      epochLossHashes := stats.epoch_loss_hashes,
      epochGradientNormHashes := stats.epoch_gradient_norm_hashes,
      randomChallengeSeed := stats.random_challenge_seed,
      attestation := attestation, auditTrace := audit2 }
  if truthy req.sessionKey then
    TrainResponse.okEncrypted (encrypt_for_coordinator env.pdumps update_payload req.sessionKey)
  else
    TrainResponse.ok update_payload

/-- The `/train` handler: with truthy `encryptedData` and `sessionKey`, first
call the coordinator's decrypt endpoint (explicit 30-second timeout); any
failure — transport error, non-success status, malformed body, missing
`decryptedData` key — short-circuits into a labeled 400 error outcome.  After
a successful decrypt, a truthy `commitHash` triggers commit verification on
the decrypted shard.  Without truthy encrypted inputs, the round trains
directly on `dataShard` with no commit check. -/
def train (env : Env) (req : TrainShardRequest) : TrainResponse :=
  let started := env.times 0
  let auditStart := AuditEvent.trainingStart started req.nodeId req.globalModelHash
  if truthy req.encryptedData && truthy req.sessionKey then
    let evReq := AuditEvent.decryptPermissionRequest (env.times 1) (truthy req.txBytes)
    match env.decrypt 30 ⟨req.encryptedData, req.sessionKey, req.txBytes, req.userAddress⟩ with
    | .error e =>
        TrainResponse.errorResp
          ⟨ascii "Decryption failed: " ++ e, req.nodeId,
           [auditStart, evReq, AuditEvent.decryptFailed (env.times 2) e]⟩ 400
    | .ok obj =>
        match obj.lookup (ascii "decryptedData") with
        | none =>
            let e := 39 :: (ascii "decryptedData" ++ [39])
            TrainResponse.errorResp
              ⟨ascii "Decryption failed: " ++ e, req.nodeId,
               [auditStart, evReq, AuditEvent.decryptFailed (env.times 2) e]⟩ 400
        | some data_shard =>
            if truthy req.commitHash then
              let cv := verify_commit data_shard (req.commitHash.getD [])
              trainBody env req started data_shard (some cv)
                [auditStart, evReq,
                 AuditEvent.commitVerificationEvt (env.times 2) cv.matchFlag (req.commitHash.getD []),
                 AuditEvent.decryptPermissionGranted (env.times 3)]
            else
              trainBody env req started data_shard none
                [auditStart, evReq, AuditEvent.decryptPermissionGranted (env.times 3)]
  else
    trainBody env req started req.dataShard none [auditStart]

/-! ## Shared helper lemmas and concrete instances for witnesses -/

/-- Concatenate a list of byte chunks. -/
def catBytes (l : List Bytes) : Bytes := l.foldr (· ++ ·) []

theorem catBytes_mid_ne (C : List Bytes) {v v' : Bytes} (D : List Bytes) (hv : v' ≠ v) :
    catBytes (C ++ v' :: D) ≠ catBytes (C ++ v :: D) := by
  intro h
  induction C with
  | nil =>
      simp only [List.nil_append, catBytes, List.foldr_cons] at h
      exact hv (List.append_cancel_right h)
  | cons c cs ih =>
      simp only [List.cons_append, catBytes, List.foldr_cons] at h
      exact ih (List.append_cancel_left h)

theorem joinBytes_length (sep : Bytes) :
    ∀ l : List Bytes, (joinBytes sep l).length =
      (l.map List.length).sum + sep.length * (l.length - 1)
  | [] => by simp [joinBytes]
  | [x] => by simp [joinBytes]
  | x :: y :: t => by
      have ih := joinBytes_length sep (y :: t)
      simp only [joinBytes, List.length_append, ih, List.map_cons, List.sum_cons,
        List.length_cons, Nat.add_sub_cancel]
      ring

/-- A concrete injective rendering of rationals (`num/den`), used to
instantiate the abstract float formatter in witnesses and counterexamples. -/
def reprX (q : ℚ) : Bytes := intStr q.num ++ [47] ++ natStr q.den

/-- A concrete keypair for witnesses: identity signing, fixed public key. -/
def kpW : KeypairM := ⟨fun m => m, ascii "PK"⟩

/-- A concrete verifier matching `kpW`: a signature checks against a message
iff it equals the identity signature of that message. -/
def verifyW (_pk m s : Bytes) : Bool := s == m

/-- A concrete non-empty hardware dict. -/
def hwW : HWInfo := [(ascii "cpu_cores", PyVal.pInt 1)]

/-- A concrete draw stream: 1/8 at indices 0 and 2, else 0. -/
def drawsX (ix : ℕ) : ℚ := if ix = 0 then 1/8 else if ix = 2 then 1/8 else 0

/-- A concrete environment for handler witnesses. -/
def envW : Env :=
  { frepr := reprX, draws := drawsX, chal := 1000000, keypair := kpW, hwInfo := hwW,
    decrypt := fun _ _ => Except.error (ascii "timeout"),
    times := fun n => natStr n, analyze := fun _ => [], pdumps := fun _ => [] }

/-- An empty attestation, used as the default of `okPayload`. -/
def emptyAttestation : Attestation := ⟨[], [], [], [], [], [], [], [], none⟩

/-- An empty payload, used as the default of `okPayload`. -/
def emptyPayload : UpdatePayload := ⟨[], [], 0, [], [], [], [], [], [], [], [], 0, emptyAttestation, []⟩

/-- The payload of a successful response (default value otherwise). -/
def okPayload (r : TrainResponse) : UpdatePayload :=
  match r with
  | .ok p => p
  | _ => emptyPayload

/- `Rat.add` and friends are `@[irreducible]` in Batteries, which blocks the
elaborator-side evaluation `decide` relies on; restore default reducibility
locally so concrete rational computations evaluate. -/
attribute [local semireducible] Rat.add Rat.mul Rat.inv Rat.sub Rat.ofScientific

/-! ## Claim C5: `verify_commit` -/

/-- C5: for every plaintext `p` and commitment `c`, `verify_commit p c` is pure
and returns the record `\x7bmatch, computedHash, commitHash, verified\x7d` with
`computedHash` the SHA-256 hex digest of `p` and `match` true exactly when that
digest equals `c` under case-sensitive comparison; `verify p (H p)` matches,
and at the spec's scenario plaintext, appending `"x"` to the committed text
makes the match false. -/
theorem C5_verify_commit (p c : Bytes) :
    (verify_commit p c).computedHash = sha256_hash p ∧
    (verify_commit p c).commitHash = c ∧
    ((verify_commit p c).matchFlag = true ↔ sha256_hash p = c) ∧
    (verify_commit p c).verified = (verify_commit p c).matchFlag ∧
    (verify_commit p (sha256_hash p)).matchFlag = true ∧
    (verify_commit (ascii "id,amount\n1,10\n2,20\n")
      (sha256_hash (ascii "id,amount\n1,10\n2,20\n" ++ ascii "x"))).matchFlag = false := by
  refine ⟨rfl, rfl, ?_, rfl, ?_, ?_⟩
  · simp [verify_commit]
  · simp [verify_commit]
  · decide

/-! ## Claim C3: secret resolution order in `WorkerKeypair.__init__` -/

/-- C3 counterexample: the claim says the raw-bytes fallback is
"truncated/padded to the 32-byte key size", but the code only truncates
(`[:32]`): the secret `"zzzzz@"` fails base64 decoding (five data characters
after discarding `@`) and hex decoding, and resolves to its raw six bytes —
shorter than 32, with no padding. -/
theorem C3_counterexample :
    B64.b64decode (ascii "zzzzz@") = none ∧
    hexdecode (ascii "zzzzz@") = none ∧
    initKeyMaterial (some (ascii "zzzzz@")) (List.replicate 32 0) = ascii "zzzzz@" ∧
    (initKeyMaterial (some (ascii "zzzzz@")) (List.replicate 32 0)).length = 6 := by
  decide

/-- C3 amended: for a truthy configured secret the key material resolves in
order — base64 decode first, then hex decode, then the raw UTF-8 bytes
truncated to *at most* 32 bytes (shorter secrets are not padded); with no
secret a fresh random key is generated; and a value decoding both as base64
and as hex (such as `"deadbeef"`, to different bytes) resolves via base64. -/
theorem C3_amended (s : Bytes) (fresh : Bytes) (hs : s ≠ []) :
    (∀ k, B64.b64decode s = some k → resolveKeyMaterial s = k) ∧
    (B64.b64decode s = none → ∀ k, hexdecode s = some k → resolveKeyMaterial s = k) ∧
    (B64.b64decode s = none → hexdecode s = none →
      resolveKeyMaterial s = s.take 32 ∧ (resolveKeyMaterial s).length ≤ 32) ∧
    initKeyMaterial (some s) fresh = resolveKeyMaterial s ∧
    initKeyMaterial none fresh = fresh ∧
    (B64.b64decode (ascii "deadbeef")).isSome = true ∧
    (hexdecode (ascii "deadbeef")).isSome = true ∧
    B64.b64decode (ascii "deadbeef") ≠ hexdecode (ascii "deadbeef") ∧
    resolveKeyMaterial (ascii "deadbeef") = (B64.b64decode (ascii "deadbeef")).getD [] := by
  obtain ⟨a, t, rfl⟩ : ∃ a t, s = a :: t := by
    cases s with
    | nil => exact absurd rfl hs
    | cons a t => exact ⟨a, t, rfl⟩
  refine ⟨?_, ?_, ?_, rfl, rfl, by decide, by decide, by decide, by decide⟩
  · intro k hk
    simp [resolveKeyMaterial, hk]
  · intro h1 k hk
    simp [resolveKeyMaterial, h1, hk]
  · intro h1 h2
    refine ⟨by simp [resolveKeyMaterial, h1, h2], ?_⟩
    simp [resolveKeyMaterial, h1, h2]

/-- C3 witness: the amended claim applied at the secret `"deadbeef"`. -/
theorem C3_witness :
    (ascii "deadbeef" ≠ []) ∧
    initKeyMaterial (some (ascii "deadbeef")) [] = resolveKeyMaterial (ascii "deadbeef") ∧
    resolveKeyMaterial (ascii "deadbeef") = (B64.b64decode (ascii "deadbeef")).getD [] :=
  ⟨by decide, (C3_amended (ascii "deadbeef") [] (by decide)).2.2.2.1,
   (C3_amended (ascii "deadbeef") [] (by decide)).2.2.2.2.2.2.2.2⟩

/-! ## Claim C7: `encrypt_for_coordinator` -/

/-- C7 counterexample: the claim says *any* supplied session key yields
`encrypted = true`, but the empty session key is falsy to
`if session_key:`, so the payload passes through unencoded. -/
theorem C7_counterexample :
    (encrypt_for_coordinator (fun b : Bytes => b) (ascii "x") (some [])).encrypted = false := by
  decide

/-- C7 amended: with no session key (or the falsy empty one) the payload's
JSON passes through with `encrypted = false`; with any non-empty session key
the result is `encrypted = true`, carrying the base64 encoding of the same
JSON under the explicit `"base64"` placeholder label, and base64-decoding it
recovers exactly the pass-through data (round trip, no confidentiality). -/
theorem C7_amended {P : Type} (jdumps : P → Bytes) (payload : P) (k : Bytes)
    (hk : k ≠ []) (hbytes : ∀ b ∈ jdumps payload, b < 256) :
    (encrypt_for_coordinator jdumps payload none).encrypted = false ∧
    (encrypt_for_coordinator jdumps payload none).data = jdumps payload ∧
    (encrypt_for_coordinator jdumps payload none).encryption = none ∧
    (encrypt_for_coordinator jdumps payload (some k)).encrypted = true ∧
    (encrypt_for_coordinator jdumps payload (some k)).data =
      B64.b64encode (jdumps payload) ∧
    (encrypt_for_coordinator jdumps payload (some k)).encryption = some (ascii "base64") ∧
    B64.b64decode (encrypt_for_coordinator jdumps payload (some k)).data =
      some ((encrypt_for_coordinator jdumps payload none).data) := by
  obtain ⟨a, t, rfl⟩ : ∃ a t, k = a :: t := by
    cases k with
    | nil => exact absurd rfl hk
    | cons a t => exact ⟨a, t, rfl⟩
  refine ⟨rfl, rfl, rfl, rfl, rfl, rfl, ?_⟩
  exact B64.b64decode_b64encode hbytes

/-- C7 witness: the amended claim at a concrete payload and session key. -/
theorem C7_witness :
    (ascii "k" ≠ [] ∧ ∀ b ∈ (fun b : Bytes => b) (ascii "hi"), b < 256) ∧
    B64.b64decode (encrypt_for_coordinator (fun b : Bytes => b) (ascii "hi")
        (some (ascii "k"))).data =
      some ((encrypt_for_coordinator (fun b : Bytes => b) (ascii "hi") none).data) :=
  ⟨⟨by decide, by decide⟩,
   (C7_amended (fun b : Bytes => b) (ascii "hi") (ascii "k") (by decide)
      (by decide)).2.2.2.2.2.2⟩

/-! ## Claims C8 and C1: the replay proof of `train_on_csv` -/

theorem getD_map_range {A : Type} (f : ℕ → A) (d : A) {n i : ℕ} (hi : i < n) :
    ((List.range n).map f).getD i d = f i := by
  rw [List.getD_eq_getElem?_getD, List.getElem?_map, List.getElem?_range hi]
  rfl

/-- C8: the per-epoch hash sequences have exactly one entry per completed
epoch (their lengths equal the loss history's, entry `i` being the hash bound
to epoch index `i` and the `i`-th published loss), every entry is a bare
64-character lowercase hex digest with no prefix, and the challenge seed is
the integer drawn for the round. -/
theorem C8_replay_proof_shape (frepr : ℚ → Bytes) (csv : Bytes) (epochs seed : ℤ)
    (draws : ℕ → ℚ) (chal : ℕ) :
    (train_on_csv frepr csv epochs seed draws chal).epoch_loss_hashes.length =
      (train_on_csv frepr csv epochs seed draws chal).loss_history.length ∧
    (train_on_csv frepr csv epochs seed draws chal).epoch_gradient_norm_hashes.length =
      (train_on_csv frepr csv epochs seed draws chal).loss_history.length ∧
    (∀ i, i < (train_on_csv frepr csv epochs seed draws chal).loss_history.length →
      (train_on_csv frepr csv epochs seed draws chal).epoch_loss_hashes.getD i [] =
        sha256_hash (lossMsg frepr i
          ((train_on_csv frepr csv epochs seed draws chal).loss_history.getD i 0) seed chal)) ∧
    (∀ h ∈ (train_on_csv frepr csv epochs seed draws chal).epoch_loss_hashes,
      h.length = 64 ∧ ∀ c ∈ h, SHA256.isHexLower c = true) ∧
    (∀ h ∈ (train_on_csv frepr csv epochs seed draws chal).epoch_gradient_norm_hashes,
      h.length = 64 ∧ ∀ c ∈ h, SHA256.isHexLower c = true) ∧
    (train_on_csv frepr csv epochs seed draws chal).random_challenge_seed = chal := by
  refine ⟨?_, ?_, ?_, ?_, ?_, rfl⟩
  · simp [train_on_csv, epochsRun_eq]
  · simp [train_on_csv, epochsRun_eq]
  · intro i hi
    simp only [train_on_csv, epochsRun_eq] at hi ⊢
    simp only [List.length_map, List.length_range] at hi
    rw [getD_map_range _ _ hi, getD_map_range _ _ hi]
    simp
  · intro h hmem
    simp only [train_on_csv, epochsRun_eq, List.mem_map] at hmem
    obtain ⟨j, _, rfl⟩ := hmem
    exact ⟨sha256_hash_length _, sha256_hash_hex _⟩
  · intro h hmem
    simp only [train_on_csv, epochsRun_eq, List.mem_map] at hmem
    obtain ⟨j, _, rfl⟩ := hmem
    exact ⟨sha256_hash_length _, sha256_hash_hex _⟩

/-- C8 witness: the shape claim applied at a concrete two-epoch run. -/
theorem C8_witness :
    0 < (train_on_csv reprX (ascii "a,b\n1,2\n") 2 1337 drawsX 1000000).loss_history.length ∧
    (train_on_csv reprX (ascii "a,b\n1,2\n") 2 1337 drawsX 1000000).epoch_loss_hashes.getD 0 [] =
      sha256_hash (lossMsg reprX 0
        ((train_on_csv reprX (ascii "a,b\n1,2\n") 2 1337 drawsX 1000000).loss_history.getD 0 0)
        1337 1000000) :=
  ⟨by decide,
   (C8_replay_proof_shape reprX (ascii "a,b\n1,2\n") 2 1337 drawsX 1000000).2.2.1 0 (by decide)⟩

/-- Equality transport for an inequality: if both sides rewrite to values that
differ, the originals differ. -/
theorem ne_of_eq_of_eq_of_ne {A : Type} {a b c d : A} (ha : a = c) (hb : b = d)
    (h : c ≠ d) : a ≠ b := by
  subst ha
  subst hb
  exact h

theorem C1_cx_val : uLoss drawsX 1 (1 + drawsX 0 * (2/10)) 0 = 1353/1600 := by
  have h1 : (1 + drawsX 0 * (2/10) : ℚ) = 41/40 := by decide
  rw [h1]
  decide

theorem C1_cx_histval :
    (train_on_csv reprX (ascii "a,b\n1,2\n") 1 1337 drawsX 1000000).loss_history.getD 0 0 =
      1057/1250 := by
  simp only [train_on_csv, epochsRun_eq]
  rw [getD_map_range _ _ (show (0:ℕ) < (max 1 (min (1:ℤ) 10)).toNat by decide)]
  rw [C1_cx_val]
  decide

theorem C1_cx_lhs :
    (train_on_csv reprX (ascii "a,b\n1,2\n") 1 1337 drawsX
        1000000).epoch_gradient_norm_hashes.getD 0 [] =
      sha256_hash (ascii "epoch:0:grad_norm:1600/1369:seed:1337:challenge:1000000") := by
  simp only [train_on_csv, epochsRun_eq]
  rw [getD_map_range _ _ (show (0:ℕ) < (max 1 (min (1:ℤ) 10)).toNat by decide)]
  refine congrArg sha256_hash ?_
  rw [C1_cx_val]
  have h2 : (1 / ((1353:ℚ)/1600 + 1/100)) = 1600/1369 := by decide
  rw [h2]
  decide

theorem C1_cx_rhs :
    sha256_hash (gradMsg reprX 0
        (1 / ((train_on_csv reprX (ascii "a,b\n1,2\n") 1 1337 drawsX
            1000000).loss_history.getD 0 0 + 1/100)) 1337 1000000) =
      sha256_hash (ascii "epoch:0:grad_norm:2500/2139:seed:1337:challenge:1000000") := by
  refine congrArg sha256_hash ?_
  rw [C1_cx_histval]
  have h2 : (1 / ((1057:ℚ)/1250 + 1/100)) = 2500/2139 := by decide
  rw [h2]
  decide

theorem C1_cx_digests_ne :
    sha256_hash (ascii "epoch:0:grad_norm:1600/1369:seed:1337:challenge:1000000") ≠
      sha256_hash (ascii "epoch:0:grad_norm:2500/2139:seed:1337:challenge:1000000") :=
  ne_of_beq_false (by decide)

/-- C1 counterexample: with draws 1/8 at indices 0 and 2 the unrounded
epoch-0 loss is `1.025 * 0.825 = 0.845625`, published (rounded) as `0.8456 =
1057/1250`; the recorded gradient-norm hash binds `1/(0.845625 + 0.01)`, not
`1/(0.8456 + 0.01)`, so it differs from the hash recomputed from the
published loss history — a verifier holding only the published loss history
cannot recompute the gradient hash sequence, refuting the claim as stated. -/
theorem C1_counterexample :
    (train_on_csv reprX (ascii "a,b\n1,2\n") 1 1337 drawsX 1000000).loss_history.getD 0 0 =
      1057/1250 ∧
    (train_on_csv reprX (ascii "a,b\n1,2\n") 1 1337 drawsX
        1000000).epoch_gradient_norm_hashes.getD 0 [] ≠
      sha256_hash (gradMsg reprX 0
        (1 / ((train_on_csv reprX (ascii "a,b\n1,2\n") 1 1337 drawsX
            1000000).loss_history.getD 0 0 + 1/100)) 1337 1000000) :=
  ⟨C1_cx_histval, ne_of_eq_of_eq_of_ne C1_cx_lhs C1_cx_rhs C1_cx_digests_ne⟩

/-- C1 amended: for every epoch `i`, `lossHash[i]` is the SHA-256 (over the
rendered text, hex-encoded) of
`"epoch:"+i+":loss:"+round(loss[i],4)+":seed:"+seed+":challenge:"+challengeSeed`
with `loss[i]` the `i`-th published loss — so the loss-hash sequence is
recomputable from the published history — but `gradHash[i]` binds
`g = 1/(u[i]+0.01)` for `u[i]` the *unrounded* internal loss of epoch `i`
(whose 4-decimal rounding is the published `loss[i]`), so the gradient-hash
sequence is not recomputable from the published history alone. -/
theorem C1_amended (frepr : ℚ → Bytes) (csv : Bytes) (epochs seed : ℤ) (draws : ℕ → ℚ)
    (chal : ℕ) (i : ℕ)
    (hi : i < (train_on_csv frepr csv epochs seed draws chal).loss_history.length) :
    (train_on_csv frepr csv epochs seed draws chal).epoch_loss_hashes.getD i [] =
      sha256_hash (lossMsg frepr i
        (round4 ((train_on_csv frepr csv epochs seed draws chal).loss_history.getD i 0))
        seed chal) ∧
    (train_on_csv frepr csv epochs seed draws chal).loss_history.getD i 0 =
      round4 (uLoss draws 1 (1 + draws 0 * (2/10)) i) ∧
    (train_on_csv frepr csv epochs seed draws chal).epoch_gradient_norm_hashes.getD i [] =
      sha256_hash (gradMsg frepr i
        (1 / (uLoss draws 1 (1 + draws 0 * (2/10)) i + 1/100)) seed chal) := by
  simp only [train_on_csv, epochsRun_eq] at hi ⊢
  simp only [List.length_map, List.length_range] at hi
  rw [getD_map_range _ _ hi, getD_map_range _ _ hi, getD_map_range _ _ hi]
  refine ⟨?_, rfl, ?_⟩
  · rw [round4_idem]
    simp
  · simp

/-- C1 witness: the amended claim at the concrete one-epoch run of the
counterexample input. -/
theorem C1_witness :
    0 < (train_on_csv reprX (ascii "a,b\n1,2\n") 1 1337 drawsX 1000000).loss_history.length ∧
    (train_on_csv reprX (ascii "a,b\n1,2\n") 1 1337 drawsX 1000000).epoch_loss_hashes.getD 0 [] =
      sha256_hash (lossMsg reprX 0
        (round4 ((train_on_csv reprX (ascii "a,b\n1,2\n") 1 1337 drawsX
          1000000).loss_history.getD 0 0)) 1337 1000000) :=
  ⟨by decide,
   (C1_amended reprX (ascii "a,b\n1,2\n") 1 1337 drawsX 1000000 0 (by decide)).1⟩

/-! ## Canonical-message chunk normal form (shared by C2 and C4) -/

/-- The nine mandatory lines of the canonical message, as flat chunks. -/
def baseChunks (nid wh lhh sa fa gmh : Bytes) (ns ec rs : ℤ) : List Bytes :=
  [ascii "nodeId:", nid, [10], ascii "weightsHash:", wh, [10],
   ascii "lossHistoryHash:", lhh, [10], ascii "startedAt:", sa, [10],
   ascii "finishedAt:", fa, [10], ascii "globalModelHash:", gmh, [10],
   ascii "numSamples:", intStr ns, [10], ascii "epochCount:", intStr ec, [10],
   ascii "randomSeed:", intStr rs]

/-- The hardware chunks: present exactly when the dict is truthy. -/
def hwChunks (frepr : ℚ → Bytes) : Option HWInfo → List Bytes
  | some h => if h.isEmpty then [] else [[10], ascii "hardware:", dumpsHW frepr h]
  | none => []

/-- The commit-summary chunks: present exactly when a verification is passed. -/
def cvChunks : Option CommitVerification → List Bytes
  | some c => [[10], ascii "commitVerified:", boolStr c.matchFlag,
               [10], ascii "commitHash:", c.commitHash]
  | none => []

/-- The canonical message as a flat chunk concatenation. -/
theorem message_chunks (frepr : ℚ → Bytes)
    (nid wh lhh sa fa gmh : Bytes) (ns ec rs : ℤ)
    (hw : Option HWInfo) (cv : Option CommitVerification) :
    joinBytes [10] (messageParts frepr nid wh lhh sa fa gmh ns ec rs hw cv) =
      catBytes (baseChunks nid wh lhh sa fa gmh ns ec rs ++ hwChunks frepr hw ++ cvChunks cv) := by
  rcases hw with _ | h
  · rcases cv with _ | c <;>
      simp [messageParts, joinBytes, catBytes, baseChunks, hwChunks, cvChunks, List.append_assoc]
  · by_cases hh : h.isEmpty <;> rcases cv with _ | c <;>
      simp [messageParts, joinBytes, catBytes, baseChunks, hwChunks, cvChunks, hh,
        List.append_assoc]

theorem catBytes_length (l : List Bytes) : (catBytes l).length = (l.map List.length).sum := by
  induction l with
  | nil => rfl
  | cons x t ih => simp [catBytes, List.length_append] at ih ⊢; omega

theorem dumpsHW_length_ge (frepr : ℚ → Bytes) (h : HWInfo) : 2 ≤ (dumpsHW frepr h).length := by
  simp [dumpsHW, List.length_append]

/-- The nine mandatory lines of the canonical message (line level). -/
def baseParts (nid wh lhh sa fa gmh : Bytes) (ns ec rs : ℤ) : List Bytes :=
  [ascii "nodeId:" ++ nid,
   ascii "weightsHash:" ++ wh,
   ascii "lossHistoryHash:" ++ lhh,
   ascii "startedAt:" ++ sa,
   ascii "finishedAt:" ++ fa,
   ascii "globalModelHash:" ++ gmh,
   ascii "numSamples:" ++ intStr ns,
   ascii "epochCount:" ++ intStr ec,
   ascii "randomSeed:" ++ intStr rs]

/-- The commit-summary lines of the canonical message (line level). -/
def cvParts : Option CommitVerification → List Bytes
  | some c => [ascii "commitVerified:" ++ boolStr c.matchFlag,
               ascii "commitHash:" ++ c.commitHash]
  | none => []

/-! ## Claim C4: optional-field omission changes message and signature -/

/-- C4 counterexample: the claim quantifies over *supplied* optional inputs,
but a supplied empty hardware dict is falsy to `if hardware_info:`, so the
hardware line is omitted exactly as when the argument is absent: the two
canonical messages and the two signatures coincide. -/
theorem C4_counterexample :
    (create_attestation reprX (ascii "n") (ascii "w") [] (ascii "s") (ascii "f") (ascii "g")
        10 5 7 kpW hwW (some []) none).message =
      (create_attestation reprX (ascii "n") (ascii "w") [] (ascii "s") (ascii "f") (ascii "g")
        10 5 7 kpW hwW none none).message ∧
    (create_attestation reprX (ascii "n") (ascii "w") [] (ascii "s") (ascii "f") (ascii "g")
        10 5 7 kpW hwW (some []) none).signature =
      (create_attestation reprX (ascii "n") (ascii "w") [] (ascii "s") (ascii "f") (ascii "g")
        10 5 7 kpW hwW none none).signature := by
  constructor
  · rfl
  · rfl

/-- C4 amended: for any two `create_attestation` calls with identical required
inputs where a *truthy* (non-empty) `hardware_info` is supplied in one and
absent in the other, the canonical messages differ, and — for an injective
signing function producing bytes — the signatures differ; likewise for any two
calls identical except that a commit verification is supplied in one and
absent in the other, the canonical messages and signatures differ; the
hardware line appears among the message lines exactly when the input is
truthy, and the commit summary (match flag + commit hash) exactly when a
commit verification is supplied. -/
theorem C4_amended (frepr : ℚ → Bytes) (nid wh : Bytes) (lh : List ℚ)
    (sa fa gmh : Bytes) (ns ec rs : ℤ) (kp : KeypairM) (hwAmb : HWInfo)
    (hw : HWInfo) (cv : Option CommitVerification)
    (hwOpt : Option HWInfo) (c : CommitVerification)
    (hhw : hw ≠ [])
    (hsig : Function.Injective kp.sign)
    (hb1 : ∀ b ∈ kp.sign (create_attestation frepr nid wh lh sa fa gmh ns ec rs kp hwAmb
      (some hw) cv).message, b < 256)
    (hb2 : ∀ b ∈ kp.sign (create_attestation frepr nid wh lh sa fa gmh ns ec rs kp hwAmb
      none cv).message, b < 256)
    (hb3 : ∀ b ∈ kp.sign (create_attestation frepr nid wh lh sa fa gmh ns ec rs kp hwAmb
      hwOpt (some c)).message, b < 256)
    (hb4 : ∀ b ∈ kp.sign (create_attestation frepr nid wh lh sa fa gmh ns ec rs kp hwAmb
      hwOpt none).message, b < 256) :
    (create_attestation frepr nid wh lh sa fa gmh ns ec rs kp hwAmb (some hw) cv).message ≠
      (create_attestation frepr nid wh lh sa fa gmh ns ec rs kp hwAmb none cv).message ∧
    (create_attestation frepr nid wh lh sa fa gmh ns ec rs kp hwAmb (some hw) cv).signature ≠
      (create_attestation frepr nid wh lh sa fa gmh ns ec rs kp hwAmb none cv).signature ∧
    messageParts frepr nid wh (sha256_hash (joinBytes [44] (lh.map frepr))) sa fa gmh ns ec rs
        (some hw) cv =
      baseParts nid wh (sha256_hash (joinBytes [44] (lh.map frepr))) sa fa gmh ns ec rs ++
        [ascii "hardware:" ++ dumpsHW frepr hw] ++ cvParts cv ∧
    messageParts frepr nid wh (sha256_hash (joinBytes [44] (lh.map frepr))) sa fa gmh ns ec rs
        none cv =
      baseParts nid wh (sha256_hash (joinBytes [44] (lh.map frepr))) sa fa gmh ns ec rs ++
        cvParts cv ∧
    (create_attestation frepr nid wh lh sa fa gmh ns ec rs kp hwAmb hwOpt (some c)).message ≠
      (create_attestation frepr nid wh lh sa fa gmh ns ec rs kp hwAmb hwOpt none).message ∧
    (create_attestation frepr nid wh lh sa fa gmh ns ec rs kp hwAmb hwOpt (some c)).signature ≠
      (create_attestation frepr nid wh lh sa fa gmh ns ec rs kp hwAmb hwOpt none).signature := by
  obtain ⟨a, t, rfl⟩ : ∃ a t, hw = a :: t := by
    cases hw with
    | nil => exact absurd rfl hhw
    | cons a t => exact ⟨a, t, rfl⟩
  have hmsg : (create_attestation frepr nid wh lh sa fa gmh ns ec rs kp hwAmb
      (some (a :: t)) cv).message ≠
      (create_attestation frepr nid wh lh sa fa gmh ns ec rs kp hwAmb none cv).message := by
    intro h
    simp only [create_attestation] at h
    rw [message_chunks, message_chunks] at h
    have hlen := congrArg List.length h
    rw [catBytes_length, catBytes_length] at hlen
    simp only [List.map_append, List.sum_append, hwChunks, List.isEmpty_cons] at hlen
    simp at hlen
  have hmsgcv : (create_attestation frepr nid wh lh sa fa gmh ns ec rs kp hwAmb
      hwOpt (some c)).message ≠
      (create_attestation frepr nid wh lh sa fa gmh ns ec rs kp hwAmb hwOpt none).message := by
    intro h
    simp only [create_attestation] at h
    rw [message_chunks, message_chunks] at h
    have hlen := congrArg List.length h
    rw [catBytes_length, catBytes_length] at hlen
    simp only [List.map_append, List.sum_append, cvChunks] at hlen
    cases hc : c.matchFlag <;> simp [hc, boolStr, ascii] at hlen
  refine ⟨hmsg, ?_, ?_, ?_, hmsgcv, ?_⟩
  · intro h
    simp only [create_attestation] at h hb1 hb2
    exact hmsg (by
      simp only [create_attestation]
      exact hsig (B64.b64encode_inj_on hb1 hb2 h))
  · rcases cv with _ | c' <;> simp [messageParts, baseParts, cvParts]
  · rcases cv with _ | c' <;> simp [messageParts, baseParts, cvParts]
  · intro h
    simp only [create_attestation] at h hb3 hb4
    exact hmsgcv (by
      simp only [create_attestation]
      exact hsig (B64.b64encode_inj_on hb3 hb4 h))

/-- C4 witness: the amended claim at concrete inputs with the identity
signing function, exhibiting both the hardware-info and commit-verification
message divergences. -/
theorem C4_witness :
    (hwW ≠ [] ∧ Function.Injective kpW.sign) ∧
    (create_attestation reprX (ascii "n") (ascii "w") [] (ascii "s") (ascii "f") (ascii "g")
        10 5 7 kpW hwW (some hwW) none).message ≠
      (create_attestation reprX (ascii "n") (ascii "w") [] (ascii "s") (ascii "f") (ascii "g")
        10 5 7 kpW hwW none none).message ∧
    (create_attestation reprX (ascii "n") (ascii "w") [] (ascii "s") (ascii "f") (ascii "g")
        10 5 7 kpW hwW none (some ⟨true, ascii "h", ascii "h", true⟩)).message ≠
      (create_attestation reprX (ascii "n") (ascii "w") [] (ascii "s") (ascii "f") (ascii "g")
        10 5 7 kpW hwW none none).message := by
  have H := C4_amended reprX (ascii "n") (ascii "w") [] (ascii "s") (ascii "f") (ascii "g")
    10 5 7 kpW hwW hwW none none ⟨true, ascii "h", ascii "h", true⟩ (by decide) (fun _ _ h => h)
    (by decide) (by decide) (by decide) (by decide)
  exact ⟨⟨by decide, fun _ _ h => h⟩, H.1, H.2.2.2.2.1⟩

/-! ## Claim C6: decrypt failure short-circuits the round -/

/-- A concrete request with truthy encrypted inputs, for the C6 witness. -/
def reqW6 : TrainShardRequest :=
  ⟨ascii "a,b\n1,2\n", ascii "G", 1, ascii "worker-1", 1337,
   some (ascii "E"), some (ascii "K"), none, none, none⟩

/-- C6: with truthy encrypted input supplied, the handler calls the external
decrypt collaborator with the explicit 30-second timeout, and *any* failure —
a raised transport/status exception (the `Except.error` case, covering
timeouts and non-success statuses) or a success whose parsed body lacks
`decryptedData` (the malformed-body `KeyError`) — short-circuits the round
into the labeled 400 error outcome, whose audit trail records `decrypt_failed`
and which contains no training result or attestation (the error constructor
carries only the error text, node id, and audit events). -/
theorem C6_decrypt_failure_short_circuits (env : Env) (req : TrainShardRequest)
    (h1 : truthy req.encryptedData = true) (h2 : truthy req.sessionKey = true) :
    (∀ e, env.decrypt 30 ⟨req.encryptedData, req.sessionKey, req.txBytes, req.userAddress⟩ =
        Except.error e →
      train env req = TrainResponse.errorResp
        ⟨ascii "Decryption failed: " ++ e, req.nodeId,
         [AuditEvent.trainingStart (env.times 0) req.nodeId req.globalModelHash,
          AuditEvent.decryptPermissionRequest (env.times 1) (truthy req.txBytes),
          AuditEvent.decryptFailed (env.times 2) e]⟩ 400) ∧
    (∀ obj, env.decrypt 30 ⟨req.encryptedData, req.sessionKey, req.txBytes, req.userAddress⟩ =
        Except.ok obj → obj.lookup (ascii "decryptedData") = none →
      train env req = TrainResponse.errorResp
        ⟨ascii "Decryption failed: " ++ (39 :: (ascii "decryptedData" ++ [39])), req.nodeId,
         [AuditEvent.trainingStart (env.times 0) req.nodeId req.globalModelHash,
          AuditEvent.decryptPermissionRequest (env.times 1) (truthy req.txBytes),
          AuditEvent.decryptFailed (env.times 2) (39 :: (ascii "decryptedData" ++ [39]))]⟩ 400) := by
  constructor
  · intro e hfail
    simp [train, h1, h2, hfail]
  · intro obj hok hlook
    simp [train, h1, h2, hok, hlook]

/-- C6 witness: the short-circuit applied to a concrete environment whose
decrypt collaborator fails with a timeout. -/
theorem C6_witness :
    (truthy reqW6.encryptedData = true ∧ truthy reqW6.sessionKey = true ∧
      envW.decrypt 30 ⟨reqW6.encryptedData, reqW6.sessionKey, reqW6.txBytes,
        reqW6.userAddress⟩ = Except.error (ascii "timeout")) ∧
    train envW reqW6 = TrainResponse.errorResp
      ⟨ascii "Decryption failed: " ++ ascii "timeout", reqW6.nodeId,
       [AuditEvent.trainingStart (envW.times 0) reqW6.nodeId reqW6.globalModelHash,
        AuditEvent.decryptPermissionRequest (envW.times 1) (truthy reqW6.txBytes),
        AuditEvent.decryptFailed (envW.times 2) (ascii "timeout")]⟩ 400 :=
  ⟨⟨by decide, by decide, rfl⟩,
   (C6_decrypt_failure_short_circuits envW reqW6 (by decide) (by decide)).1
     (ascii "timeout") rfl⟩

/-! ## Claim C9: the epoch clamp vs the signed epochCount -/

/-- Inversion of the round tail: a plain `ok` payload arises only when the
session key is falsy, and its fields are the trained statistics, with the
attestation built from them and the caller's `epochCount`/`randomSeed`. -/
theorem trainBody_ok_inv {env : Env} {req : TrainShardRequest} {started ds : Bytes}
    {cv : Option CommitVerification} {audit : List AuditEvent} {p : UpdatePayload}
    (h : trainBody env req started ds cv audit = TrainResponse.ok p) :
    truthy req.sessionKey = false ∧
    p.lossHistory =
      (train_on_csv env.frepr ds req.epochCount req.randomSeed env.draws env.chal).loss_history ∧
    p.epochLossHashes =
      (train_on_csv env.frepr ds req.epochCount req.randomSeed env.draws
        env.chal).epoch_loss_hashes ∧
    p.epochGradientNormHashes =
      (train_on_csv env.frepr ds req.epochCount req.randomSeed env.draws
        env.chal).epoch_gradient_norm_hashes ∧
    p.numSamples =
      (train_on_csv env.frepr ds req.epochCount req.randomSeed env.draws env.chal).num_samples ∧
    p.startedAt = started ∧
    p.attestation = create_attestation env.frepr req.nodeId p.weightsHash p.lossHistory
      p.startedAt p.finishedAt req.globalModelHash (p.numSamples : ℤ) req.epochCount
      req.randomSeed env.keypair env.hwInfo (some env.hwInfo) cv := by
  by_cases hsk : truthy req.sessionKey = true
  · simp only [trainBody, hsk, if_true] at h
    exact absurd h (by simp)
  · have hsk' : truthy req.sessionKey = false := by
      cases hx : truthy req.sessionKey
      · rfl
      · exact absurd hx hsk
    simp only [trainBody, hsk', Bool.false_eq_true, if_false] at h
    injection h with h
    subst h
    exact ⟨hsk', rfl, rfl, rfl, rfl, rfl, rfl⟩

/-- Any successful round goes through `trainBody` on some shard, commit
verification and audit prefix. -/
theorem train_ok_cases {env : Env} {req : TrainShardRequest} {p : UpdatePayload}
    (hp : train env req = TrainResponse.ok p) :
    ∃ ds cv audit, trainBody env req (env.times 0) ds cv audit = TrainResponse.ok p := by
  simp only [train] at hp
  split at hp
  · split at hp
    · exact absurd hp (by simp)
    · split at hp
      · exact absurd hp (by simp)
      · split at hp
        · exact ⟨_, _, _, hp⟩
        · exact ⟨_, _, _, hp⟩
  · exact ⟨_, _, _, hp⟩

/-- C9: every successful round runs exactly `max(1, min(epochCount, 10))`
epochs — the returned loss history and both hash sequences have that many
entries, always between 1 and 10, even for zero, negative, or large
`epochCount` — while the attestation's canonical message carries the caller's
requested `epochCount` unchanged (ninth line of `messageParts`), which can
therefore differ from the length of the signed loss history. -/
theorem C9_epoch_clamp (env : Env) (req : TrainShardRequest) (p : UpdatePayload)
    (hp : train env req = TrainResponse.ok p) :
    (p.lossHistory.length : ℤ) = max 1 (min req.epochCount 10) ∧
    1 ≤ p.lossHistory.length ∧ p.lossHistory.length ≤ 10 ∧
    p.epochLossHashes.length = p.lossHistory.length ∧
    p.epochGradientNormHashes.length = p.lossHistory.length ∧
    p.attestation.message = joinBytes [10] (messageParts env.frepr req.nodeId
      p.attestation.weightsHash p.attestation.lossHistoryHash p.startedAt p.finishedAt
      req.globalModelHash (p.numSamples : ℤ) req.epochCount req.randomSeed
      (some env.hwInfo) p.attestation.commitVerified) := by
  obtain ⟨ds, cv, audit, hbody⟩ := train_ok_cases hp
  obtain ⟨hsk, hlh, hlhash, hghash, hns, hst, hatt⟩ := trainBody_ok_inv hbody
  have hlen : (train_on_csv env.frepr ds req.epochCount req.randomSeed env.draws
      env.chal).loss_history.length = (max 1 (min req.epochCount 10)).toNat := by
    simp [train_on_csv, epochsRun_eq]
  refine ⟨?_, ?_, ?_, ?_, ?_, ?_⟩
  · rw [hlh, hlen]; omega
  · rw [hlh, hlen]; omega
  · rw [hlh, hlen]; omega
  · rw [hlhash, hlh]; simp [train_on_csv, epochsRun_eq]
  · rw [hghash, hlh]; simp [train_on_csv, epochsRun_eq]
  · rw [hatt]
    simp [create_attestation]

/-- A concrete plain request asking for 20 epochs, for the C9 witness. -/
def reqW9 : TrainShardRequest :=
  ⟨ascii "a,b\n1,2\n", ascii "G", 20, ascii "worker-1", 1337, none, none, none, none, none⟩

/-- C9 witness: requesting 20 epochs yields a 10-entry loss history while the
request's `epochCount` stays 20. -/
theorem C9_witness :
    train envW reqW9 = TrainResponse.ok (okPayload (train envW reqW9)) ∧
    (okPayload (train envW reqW9)).lossHistory.length = 10 ∧
    reqW9.epochCount = 20 := by
  have hp : train envW reqW9 = TrainResponse.ok (okPayload (train envW reqW9)) := rfl
  refine ⟨hp, ?_, rfl⟩
  have h := (C9_epoch_clamp envW reqW9 (okPayload (train envW reqW9)) hp).1
  have h20 : reqW9.epochCount = 20 := rfl
  rw [h20] at h
  norm_num at h
  exact_mod_cast h

/-! ## Claim C10: commit verification gating -/

/-- C10: commit verification runs only when truthy `encryptedData` *and*
`sessionKey` are supplied and the decrypt call succeeds.  Whenever that
conjunction is falsy — a `commitHash` with a plaintext `dataShard`, or
`encryptedData` without a `sessionKey` — the round is exactly the plain
`trainBody` on the raw `dataShard` with no commit verification: the
attestation's `commitVerified` stays absent and its canonical message carries
no commitment summary.  Conversely, after a successful decrypt with a truthy
`commitHash`, the attestation carries `verify_commit` of the decrypted shard
against that hash. -/
theorem C10_commit_gating (env : Env) (req : TrainShardRequest) :
    ((truthy req.encryptedData && truthy req.sessionKey) = false →
      train env req = trainBody env req (env.times 0) req.dataShard none
        [AuditEvent.trainingStart (env.times 0) req.nodeId req.globalModelHash] ∧
      (∀ p, train env req = TrainResponse.ok p →
        p.attestation.commitVerified = none ∧
        p.lossHistory = (train_on_csv env.frepr req.dataShard req.epochCount req.randomSeed
          env.draws env.chal).loss_history ∧
        p.attestation.message = joinBytes [10] (messageParts env.frepr req.nodeId
          p.attestation.weightsHash p.attestation.lossHistoryHash p.startedAt p.finishedAt
          req.globalModelHash (p.numSamples : ℤ) req.epochCount req.randomSeed
          (some env.hwInfo) none))) ∧
    (∀ obj ds, truthy req.encryptedData = true → truthy req.sessionKey = true →
      env.decrypt 30 ⟨req.encryptedData, req.sessionKey, req.txBytes, req.userAddress⟩ =
        Except.ok obj →
      obj.lookup (ascii "decryptedData") = some ds →
      truthy req.commitHash = true →
      ∀ p, train env req = TrainResponse.ok p →
        p.attestation.commitVerified = some (verify_commit ds (req.commitHash.getD []))) := by
  constructor
  · intro hb
    have heq : train env req = trainBody env req (env.times 0) req.dataShard none
        [AuditEvent.trainingStart (env.times 0) req.nodeId req.globalModelHash] := by
      simp [train, hb]
    refine ⟨heq, ?_⟩
    intro p hp
    rw [heq] at hp
    obtain ⟨hsk, hlh, hlhash, hghash, hns, hst, hatt⟩ := trainBody_ok_inv hp
    refine ⟨?_, hlh, ?_⟩
    · rw [hatt]
      simp [create_attestation]
    · rw [hatt]
      simp [create_attestation]
  · intro obj ds h1 h2 hdec hlook hch p hp
    simp only [train, h1, h2, Bool.and_self, if_true, hdec, hlook, hch] at hp
    obtain ⟨hsk, hlh, hlhash, hghash, hns, hst, hatt⟩ := trainBody_ok_inv hp
    rw [hatt]
    simp [create_attestation]

/-- A concrete plain request carrying a commit hash, for the C10 witness. -/
def reqW10 : TrainShardRequest :=
  ⟨ascii "a,b\n1,2\n", ascii "G", 1, ascii "worker-1", 1337, none, none, none, none,
   some (ascii "abcd")⟩

/-- C10 witness: a request with a `commitHash` but a plaintext shard performs
no commitment check — the attestation's `commitVerified` is absent. -/
theorem C10_witness :
    (truthy reqW10.encryptedData && truthy reqW10.sessionKey) = false ∧
    train envW reqW10 = TrainResponse.ok (okPayload (train envW reqW10)) ∧
    (okPayload (train envW reqW10)).attestation.commitVerified = none := by
  have hb : (truthy reqW10.encryptedData && truthy reqW10.sessionKey) = false := by decide
  have hp : train envW reqW10 = TrainResponse.ok (okPayload (train envW reqW10)) := rfl
  exact ⟨hb, hp,
    (((C10_commit_gating envW reqW10).1 hb).2 (okPayload (train envW reqW10)) hp).1⟩

/-! ## Claim C2: attestation signature integrity -/

theorem boolStr_inj : Function.Injective boolStr := by
  intro a b h
  cases a <;> cases b <;> first
    | rfl
    | (exfalso; exact absurd h (by decide))

/-- C2 counterexample: `create_attestation` called *without* hardware info
signs a message with no hardware line, but the returned record substitutes
the ambient machine info (`hardware_info or get_hardware_info()`), so a
verifier reconstructing the canonical message from the returned attested
fields under the stated optionality rule includes a hardware line the signer
never signed: the reconstruction differs from the signed message and
verification fails. -/
theorem C2_counterexample :
    reconstructMessage reprX (ascii "n")
        (create_attestation reprX (ascii "n") (ascii "w") [] (ascii "s") (ascii "f")
          (ascii "g") 10 5 7 kpW hwW none none).weightsHash
        [] (ascii "s") (ascii "f") (ascii "g") 10 5 7
        (create_attestation reprX (ascii "n") (ascii "w") [] (ascii "s") (ascii "f")
          (ascii "g") 10 5 7 kpW hwW none none).hardwareInfo
        (create_attestation reprX (ascii "n") (ascii "w") [] (ascii "s") (ascii "f")
          (ascii "g") 10 5 7 kpW hwW none none).commitVerified ≠
      (create_attestation reprX (ascii "n") (ascii "w") [] (ascii "s") (ascii "f")
        (ascii "g") 10 5 7 kpW hwW none none).message ∧
    verifyW kpW.pub
      (reconstructMessage reprX (ascii "n")
        (create_attestation reprX (ascii "n") (ascii "w") [] (ascii "s") (ascii "f")
          (ascii "g") 10 5 7 kpW hwW none none).weightsHash
        [] (ascii "s") (ascii "f") (ascii "g") 10 5 7
        (create_attestation reprX (ascii "n") (ascii "w") [] (ascii "s") (ascii "f")
          (ascii "g") 10 5 7 kpW hwW none none).hardwareInfo
        (create_attestation reprX (ascii "n") (ascii "w") [] (ascii "s") (ascii "f")
          (ascii "g") 10 5 7 kpW hwW none none).commitVerified)
      (kpW.sign (create_attestation reprX (ascii "n") (ascii "w") [] (ascii "s") (ascii "f")
        (ascii "g") 10 5 7 kpW hwW none none).message) = false := by
  constructor
  · exact ne_of_beq_false (by decide)
  · decide

/-- C2 amended: for every attestation built with a *truthy* (non-empty)
`hardware_info`, a verifier that reconstructs the canonical message from the
returned attested fields — applying the stated optionality rule, with
`lossHistoryHash` recomputed as the SHA-256 of the comma join of the loss
history — obtains exactly the signed message, the returned base64 signature
decodes to the raw signature of that message, and checking it against the
public key succeeds; mutating any one attested field before reconstruction
makes verification fail.  (For builds without truthy hardware info the
returned record's `hardwareInfo` is the ambient machine info while the signed
message omits the line, so reconstruction from the returned fields fails —
see the counterexample.) -/
theorem C2_amended (frepr : ℚ → Bytes) (nid wh : Bytes) (lh : List ℚ) (sa fa gmh : Bytes)
    (ns ec rs : ℤ) (kp : KeypairM) (hwAmb : HWInfo) (hw : HWInfo)
    (cv : Option CommitVerification) (verify : Bytes → Bytes → Bytes → Bool)
    (att : Attestation)
    (hatt : att = create_attestation frepr nid wh lh sa fa gmh ns ec rs kp hwAmb (some hw) cv)
    (hhw : hw ≠ [])
    (hcorrect : ∀ m, verify kp.pub m (kp.sign m) = true)
    (hsound : ∀ m m', m' ≠ m → verify kp.pub m' (kp.sign m) = false)
    (hbytes : ∀ b ∈ kp.sign att.message, b < 256) :
    reconstructMessage frepr nid att.weightsHash lh sa fa gmh ns ec rs
      att.hardwareInfo att.commitVerified = att.message ∧
    B64.b64decode att.signature = some (kp.sign att.message) ∧
    verify kp.pub (reconstructMessage frepr nid att.weightsHash lh sa fa gmh ns ec rs
      att.hardwareInfo att.commitVerified) (kp.sign att.message) = true ∧
    (∀ nid', nid' ≠ nid → verify kp.pub (reconstructMessage frepr nid' att.weightsHash lh
      sa fa gmh ns ec rs att.hardwareInfo att.commitVerified) (kp.sign att.message) = false) ∧
    (∀ wh', wh' ≠ wh → verify kp.pub (reconstructMessage frepr nid wh' lh
      sa fa gmh ns ec rs att.hardwareInfo att.commitVerified) (kp.sign att.message) = false) ∧
    (∀ lh', sha256_hash (joinBytes [44] (lh'.map frepr)) ≠
        sha256_hash (joinBytes [44] (lh.map frepr)) →
      verify kp.pub (reconstructMessage frepr nid att.weightsHash lh'
        sa fa gmh ns ec rs att.hardwareInfo att.commitVerified) (kp.sign att.message) = false) ∧
    (∀ sa', sa' ≠ sa → verify kp.pub (reconstructMessage frepr nid att.weightsHash lh
      sa' fa gmh ns ec rs att.hardwareInfo att.commitVerified) (kp.sign att.message) = false) ∧
    (∀ fa', fa' ≠ fa → verify kp.pub (reconstructMessage frepr nid att.weightsHash lh
      sa fa' gmh ns ec rs att.hardwareInfo att.commitVerified) (kp.sign att.message) = false) ∧
    (∀ gmh', gmh' ≠ gmh → verify kp.pub (reconstructMessage frepr nid att.weightsHash lh
      sa fa gmh' ns ec rs att.hardwareInfo att.commitVerified) (kp.sign att.message) = false) ∧
    (∀ ns', ns' ≠ ns → verify kp.pub (reconstructMessage frepr nid att.weightsHash lh
      sa fa gmh ns' ec rs att.hardwareInfo att.commitVerified) (kp.sign att.message) = false) ∧
    (∀ ec', ec' ≠ ec → verify kp.pub (reconstructMessage frepr nid att.weightsHash lh
      sa fa gmh ns ec' rs att.hardwareInfo att.commitVerified) (kp.sign att.message) = false) ∧
    (∀ rs', rs' ≠ rs → verify kp.pub (reconstructMessage frepr nid att.weightsHash lh
      sa fa gmh ns ec rs' att.hardwareInfo att.commitVerified) (kp.sign att.message) = false) ∧
    (∀ hw', hw' ≠ [] → dumpsHW frepr hw' ≠ dumpsHW frepr hw →
      verify kp.pub (reconstructMessage frepr nid att.weightsHash lh
        sa fa gmh ns ec rs hw' att.commitVerified) (kp.sign att.message) = false) ∧
    (∀ c c', cv = some c → c'.commitHash = c.commitHash → c'.matchFlag ≠ c.matchFlag →
      verify kp.pub (reconstructMessage frepr nid att.weightsHash lh
        sa fa gmh ns ec rs att.hardwareInfo (some c')) (kp.sign att.message) = false) ∧
    (∀ c c', cv = some c → c'.matchFlag = c.matchFlag → c'.commitHash ≠ c.commitHash →
      verify kp.pub (reconstructMessage frepr nid att.weightsHash lh
        sa fa gmh ns ec rs att.hardwareInfo (some c')) (kp.sign att.message) = false) := by
  subst hatt
  obtain ⟨a, t, rfl⟩ : ∃ a t, hw = a :: t := by
    cases hw with
    | nil => exact absurd rfl hhw
    | cons a t => exact ⟨a, t, rfl⟩
  have hfield : (create_attestation frepr nid wh lh sa fa gmh ns ec rs kp hwAmb
      (some (a :: t)) cv).hardwareInfo = a :: t := by
    simp [create_attestation]
  have hcvf : (create_attestation frepr nid wh lh sa fa gmh ns ec rs kp hwAmb
      (some (a :: t)) cv).commitVerified = cv := rfl
  have hwhf : (create_attestation frepr nid wh lh sa fa gmh ns ec rs kp hwAmb
      (some (a :: t)) cv).weightsHash = wh := rfl
  have hmsg : (create_attestation frepr nid wh lh sa fa gmh ns ec rs kp hwAmb
      (some (a :: t)) cv).message =
      catBytes (baseChunks nid wh (sha256_hash (joinBytes [44] (lh.map frepr)))
        sa fa gmh ns ec rs
        ++ [[10], ascii "hardware:", dumpsHW frepr (a :: t)] ++ cvChunks cv) := by
    simp only [create_attestation]
    rw [message_chunks]
    simp [hwChunks]
  have hrec : ∀ (nid2 wh2 : Bytes) (lh2 : List ℚ) (sa2 fa2 gmh2 : Bytes) (ns2 ec2 rs2 : ℤ)
      (cv2 : Option CommitVerification),
      reconstructMessage frepr nid2 wh2 lh2 sa2 fa2 gmh2 ns2 ec2 rs2 (a :: t) cv2 =
        catBytes (baseChunks nid2 wh2 (sha256_hash (joinBytes [44] (lh2.map frepr)))
          sa2 fa2 gmh2 ns2 ec2 rs2
          ++ [[10], ascii "hardware:", dumpsHW frepr (a :: t)] ++ cvChunks cv2) := by
    intro nid2 wh2 lh2 sa2 fa2 gmh2 ns2 ec2 rs2 cv2
    rw [reconstructMessage]
    simp only [List.isEmpty_cons, Bool.false_eq_true, if_false]
    rw [message_chunks]
    simp [hwChunks]
  have h1 : reconstructMessage frepr nid wh lh sa fa gmh ns ec rs (a :: t) cv =
      (create_attestation frepr nid wh lh sa fa gmh ns ec rs kp hwAmb
        (some (a :: t)) cv).message := by
    rw [hrec, hmsg]
  refine ⟨?_, ?_, ?_, ?_, ?_, ?_, ?_, ?_, ?_, ?_, ?_, ?_, ?_, ?_, ?_⟩
  · rw [hfield, hcvf, hwhf]
    exact h1
  · exact B64.b64decode_b64encode hbytes
  · rw [hfield, hcvf, hwhf, h1]
    exact hcorrect _
  · intro nid' hne
    rw [hfield, hcvf, hwhf]
    apply hsound
    rw [hrec, hmsg]
    exact catBytes_mid_ne [ascii "nodeId:"] _ hne
  · intro wh' hne
    rw [hfield, hcvf]
    apply hsound
    rw [hrec, hmsg]
    exact catBytes_mid_ne [ascii "nodeId:", nid, [10], ascii "weightsHash:"] _ hne
  · intro lh' hne
    rw [hfield, hcvf, hwhf]
    apply hsound
    rw [hrec, hmsg]
    exact catBytes_mid_ne [ascii "nodeId:", nid, [10], ascii "weightsHash:", wh, [10],
      ascii "lossHistoryHash:"] _ hne
  · intro sa' hne
    rw [hfield, hcvf, hwhf]
    apply hsound
    rw [hrec, hmsg]
    exact catBytes_mid_ne [ascii "nodeId:", nid, [10], ascii "weightsHash:", wh, [10],
      ascii "lossHistoryHash:", sha256_hash (joinBytes [44] (lh.map frepr)), [10],
      ascii "startedAt:"] _ hne
  · intro fa' hne
    rw [hfield, hcvf, hwhf]
    apply hsound
    rw [hrec, hmsg]
    exact catBytes_mid_ne [ascii "nodeId:", nid, [10], ascii "weightsHash:", wh, [10],
      ascii "lossHistoryHash:", sha256_hash (joinBytes [44] (lh.map frepr)), [10],
      ascii "startedAt:", sa, [10], ascii "finishedAt:"] _ hne
  · intro gmh' hne
    rw [hfield, hcvf, hwhf]
    apply hsound
    rw [hrec, hmsg]
    exact catBytes_mid_ne [ascii "nodeId:", nid, [10], ascii "weightsHash:", wh, [10],
      ascii "lossHistoryHash:", sha256_hash (joinBytes [44] (lh.map frepr)), [10],
      ascii "startedAt:", sa, [10], ascii "finishedAt:", fa, [10],
      ascii "globalModelHash:"] _ hne
  · intro ns' hne
    rw [hfield, hcvf, hwhf]
    apply hsound
    rw [hrec, hmsg]
    exact catBytes_mid_ne [ascii "nodeId:", nid, [10], ascii "weightsHash:", wh, [10],
      ascii "lossHistoryHash:", sha256_hash (joinBytes [44] (lh.map frepr)), [10],
      ascii "startedAt:", sa, [10], ascii "finishedAt:", fa, [10],
      ascii "globalModelHash:", gmh, [10], ascii "numSamples:"] _
      (fun h => hne (intStr_inj h))
  · intro ec' hne
    rw [hfield, hcvf, hwhf]
    apply hsound
    rw [hrec, hmsg]
    exact catBytes_mid_ne [ascii "nodeId:", nid, [10], ascii "weightsHash:", wh, [10],
      ascii "lossHistoryHash:", sha256_hash (joinBytes [44] (lh.map frepr)), [10],
      ascii "startedAt:", sa, [10], ascii "finishedAt:", fa, [10],
      ascii "globalModelHash:", gmh, [10], ascii "numSamples:", intStr ns, [10],
      ascii "epochCount:"] _ (fun h => hne (intStr_inj h))
  · intro rs' hne
    rw [hfield, hcvf, hwhf]
    apply hsound
    rw [hrec, hmsg]
    exact catBytes_mid_ne [ascii "nodeId:", nid, [10], ascii "weightsHash:", wh, [10],
      ascii "lossHistoryHash:", sha256_hash (joinBytes [44] (lh.map frepr)), [10],
      ascii "startedAt:", sa, [10], ascii "finishedAt:", fa, [10],
      ascii "globalModelHash:", gmh, [10], ascii "numSamples:", intStr ns, [10],
      ascii "epochCount:", intStr ec, [10], ascii "randomSeed:"] _
      (fun h => hne (intStr_inj h))
  · intro hw' hne' hdne
    obtain ⟨a2, t2, rfl⟩ : ∃ a2 t2, hw' = a2 :: t2 := by
      cases hw' with
      | nil => exact absurd rfl hne'
      | cons a2 t2 => exact ⟨a2, t2, rfl⟩
    rw [hcvf, hwhf]
    apply hsound
    have hrec2 : reconstructMessage frepr nid wh lh sa fa gmh ns ec rs (a2 :: t2) cv =
        catBytes (baseChunks nid wh (sha256_hash (joinBytes [44] (lh.map frepr)))
          sa fa gmh ns ec rs
          ++ [[10], ascii "hardware:", dumpsHW frepr (a2 :: t2)] ++ cvChunks cv) := by
      rw [reconstructMessage]
      simp only [List.isEmpty_cons, Bool.false_eq_true, if_false]
      rw [message_chunks]
      simp [hwChunks]
    rw [hrec2, hmsg]
    exact catBytes_mid_ne (baseChunks nid wh (sha256_hash (joinBytes [44] (lh.map frepr)))
      sa fa gmh ns ec rs ++ [[10], ascii "hardware:"]) _ hdne
  · intro c c' hc hch hflag
    subst hc
    rw [hfield, hwhf]
    apply hsound
    rw [hrec, hmsg]
    simp only [cvChunks]
    rw [hch]
    exact catBytes_mid_ne (baseChunks nid wh (sha256_hash (joinBytes [44] (lh.map frepr)))
      sa fa gmh ns ec rs ++ [[10], ascii "hardware:", dumpsHW frepr (a :: t), [10],
      ascii "commitVerified:"]) _ (fun h => hflag (boolStr_inj h))
  · intro c c' hc hflag hch
    subst hc
    rw [hfield, hwhf]
    apply hsound
    rw [hrec, hmsg]
    simp only [cvChunks]
    rw [hflag]
    exact catBytes_mid_ne (baseChunks nid wh (sha256_hash (joinBytes [44] (lh.map frepr)))
      sa fa gmh ns ec rs ++ [[10], ascii "hardware:", dumpsHW frepr (a :: t), [10],
      ascii "commitVerified:", boolStr c.matchFlag, [10], ascii "commitHash:"]) _ hch

/-- The concrete attestation (truthy hardware info supplied) for the C2 witness. -/
def attW2 : Attestation :=
  create_attestation reprX (ascii "n2") (ascii "w") [] (ascii "s") (ascii "f")
    (ascii "g") 10 5 7 kpW hwW (some hwW) none

/-- C2 witness: the amended claim at a concrete attestation built with a
non-empty hardware dict and the identity signing scheme — the verifier's
reconstruction equals the signed message and the signature checks. -/
theorem C2_witness :
    hwW ≠ [] ∧
    reconstructMessage reprX (ascii "n2") attW2.weightsHash [] (ascii "s") (ascii "f")
      (ascii "g") 10 5 7 attW2.hardwareInfo attW2.commitVerified = attW2.message ∧
    verifyW kpW.pub
      (reconstructMessage reprX (ascii "n2") attW2.weightsHash [] (ascii "s") (ascii "f")
        (ascii "g") 10 5 7 attW2.hardwareInfo attW2.commitVerified)
      (kpW.sign attW2.message) = true := by
  have H := C2_amended reprX (ascii "n2") (ascii "w") [] (ascii "s") (ascii "f") (ascii "g")
    10 5 7 kpW hwW hwW none verifyW attW2 rfl (by decide)
    (fun m => beq_self_eq_true m)
    (fun m m' h => beq_eq_false_iff_ne.mpr fun hh => h hh.symm)
    (by decide)
  exact ⟨by decide, H.1, H.2.2.1⟩

end FlowData
